import Mathlib

/-!
# fossil: download the latest Pterodactyl backup

A shallow embedding of `main.go`.  The program is a straight line of library
calls, each followed by `check(err)`.  The embedding threads an explicit state
(the effects performed so far and the filesystem) through the same sequence of
calls and stops at the first error, as `log.Fatal` does.

The outside world (URL parsing, the panel, the archive server) is a record of
answer functions, `World`.  What the HTTP client does on its own is part of
it: the redirects it follows, with the rule for the `Authorization` header
(`World.redirects`, `wireRequests`), and the gzip decoding of the transport
(`ArchiveReply.body`, `delivered`).  JSON decoding into the three struct
types, the timestamp parser and formatter for the two layouts the program
uses, path joining and the filesystem calls, with the refusals of the system
(`FS.refused`, `FS.noRoom`), are modelled concretely.
-/

namespace Fossil

/-! ## JSON values and decoding into the program's struct types -/

/-- A JSON value as `encoding/json` sees it after the syntax check: object
members are kept in source order (duplicates included) and a number keeps its
literal text. -/
inductive Json where
  | null
  | bool (b : Bool)
  | num (lit : String)
  | str (s : String)
  | arr (elems : List Json)
  | obj (members : List (String × Json))

/-- The anonymous struct type of the field `Attributes` of `backup`. -/
structure backupAttributes where
  Uuid : String
  Name : String
  IsSuccessful : Bool
  Checksum : String
  Bytes : Int
  CreatedAt : String
  CompletedAt : String
  deriving DecidableEq, Repr

/-- Go type `backup` (main.go:123). -/
structure backup where
  Attributes : backupAttributes
  deriving DecidableEq, Repr

/-- Go type `backups` (main.go:135). -/
structure backups where
  Data : List backup
  deriving DecidableEq, Repr

/-- The anonymous struct type of the field `Attributes` of `backupDownload`. -/
structure downloadAttributes where
  Url : String
  deriving DecidableEq, Repr

/-- Go type `backupDownload` (main.go:139). -/
structure backupDownload where
  Attributes : downloadAttributes
  deriving DecidableEq, Repr

/-- The zero value of the attributes struct. -/
def backupAttributes.zero : backupAttributes :=
  { Uuid := "", Name := "", IsSuccessful := false, Checksum := "", Bytes := 0,
    CreatedAt := "", CompletedAt := "" }

/-- The zero value `backup{}`. -/
def backup.zero : backup := { Attributes := backupAttributes.zero }

/-- The zero value `backups{}` (main.go:63). -/
def backups.zero : backups := { Data := [] }

/-- The zero value `backupDownload{}` (main.go:92). -/
def backupDownload.zero : backupDownload := { Attributes := { Url := "" } }

/-- Case folding of one rune of an object key, as `encoding/json` folds keys
before comparing them with field names: ASCII letters to upper case, and the
two non-ASCII runes whose fold class contains an ASCII letter (U+017F long s,
U+212A Kelvin sign) to that letter.  Every other rune folds to a non-ASCII
rune and is left as it is, since all field names here are ASCII. -/
def foldChar (c : Char) : Char :=
  if 97 ≤ c.toNat ∧ c.toNat ≤ 122 then Char.ofNat (c.toNat - 32)
  else if c.toNat = 0x17F then 'S'
  else if c.toNat = 0x212A then 'K'
  else c

/-- Whether an object key selects the struct field with JSON name `field`
(exact match, else match under case folding; the first is a case of the
second). -/
def keyMatches (field key : String) : Bool :=
  decide (key.data.map foldChar = field.data.map foldChar)

/-- Value of a decimal digit character. -/
def digitVal (c : Char) : Option Nat :=
  if 48 ≤ c.toNat ∧ c.toNat ≤ 57 then some (c.toNat - 48) else none

/-- Value of a non-empty string of decimal digits, most significant first,
on top of the accumulator `acc`. -/
def digitsVal : Nat → List Char → Option Nat
  | acc, [] => some acc
  | acc, c :: cs =>
    match digitVal c with
    | some d => digitsVal (10 * acc + d) cs
    | none => none

/-- The value of a JSON number literal when it fits an `int64`
(`strconv.ParseInt(lit, 10, 64)`): an optional minus sign and decimal digits
only, within range. -/
def parseInt64 (lit : String) : Option Int :=
  match lit.data with
  | [] => none
  | '-' :: [] => none
  | '-' :: cs =>
    match digitsVal 0 cs with
    | some n => if n ≤ 2 ^ 63 then some (-(n : Int)) else none
    | none => none
  | cs =>
    match digitsVal 0 cs with
    | some n => if n < 2 ^ 63 then some (n : Int) else none
    | none => none

/-- Decode a JSON value into a `string` field: `null` leaves the field as it
is, a string sets it, anything else is an `UnmarshalTypeError`. -/
def decodeString (old : String) : Json → Option String
  | Json.null => some old
  | Json.str s => some s
  | _ => none

/-- Decode a JSON value into a `bool` field. -/
def decodeBool (old : Bool) : Json → Option Bool
  | Json.null => some old
  | Json.bool b => some b
  | _ => none

/-- Decode a JSON value into an `int64` field. -/
def decodeInt64 (old : Int) : Json → Option Int
  | Json.null => some old
  | Json.num lit => parseInt64 lit
  | _ => none

/-- Decode the members of a JSON object into a struct, one member after the
other in source order; `step` decodes one member into the struct built so
far.  `none` is a decoding error. -/
def decodeMembers {α : Type} (step : α → String → Json → Option α) :
    α → List (String × Json) → Option α
  | a, [] => some a
  | a, (k, v) :: rest =>
    match step a k v with
    | some b => decodeMembers step b rest
    | none => none

/-- One member of the attributes object of a backup record.  A key that
selects no field is skipped. -/
def decodeAttributeMember (a : backupAttributes) (key : String) (v : Json) :
    Option backupAttributes :=
  if keyMatches "uuid" key then
    (decodeString a.Uuid v).map (fun s => { a with Uuid := s })
  else if keyMatches "name" key then
    (decodeString a.Name v).map (fun s => { a with Name := s })
  else if keyMatches "is_successful" key then
    (decodeBool a.IsSuccessful v).map (fun b => { a with IsSuccessful := b })
  else if keyMatches "checksum" key then
    (decodeString a.Checksum v).map (fun s => { a with Checksum := s })
  else if keyMatches "bytes" key then
    (decodeInt64 a.Bytes v).map (fun n => { a with Bytes := n })
  else if keyMatches "created_at" key then
    (decodeString a.CreatedAt v).map (fun s => { a with CreatedAt := s })
  else if keyMatches "completed_at" key then
    (decodeString a.CompletedAt v).map (fun s => { a with CompletedAt := s })
  else some a

/-- Decode a JSON value into the attributes struct of a backup record. -/
def decodeAttributes (old : backupAttributes) : Json → Option backupAttributes
  | Json.null => some old
  | Json.obj ms => decodeMembers decodeAttributeMember old ms
  | _ => none

/-- One member of a backup record object. -/
def decodeBackupMember (b : backup) (key : String) (v : Json) : Option backup :=
  if keyMatches "attributes" key then
    (decodeAttributes b.Attributes v).map (fun a => { b with Attributes := a })
  else some b

/-- Decode a JSON value into a `backup`. -/
def decodeBackup (old : backup) : Json → Option backup
  | Json.null => some old
  | Json.obj ms => decodeMembers decodeBackupMember old ms
  | _ => none

/-- Decode the elements of a JSON array into a slice whose backing array
currently holds `backing`: element `i` is decoded into the slot `i` of the
backing array as it stands (a fresh slot holds the zero value). -/
def decodeElems : List backup → List Json → Option (List backup)
  | _, [] => some []
  | backing, v :: vs =>
    match decodeBackup (backing.headD backup.zero) v with
    | some b =>
      match decodeElems backing.tail vs with
      | some bs => some (b :: bs)
      | none => none
    | none => none

/-- The field `Data` while `backups` is being decoded: the slice and what its
backing array holds beyond the slice length. -/
structure SliceState where
  items : List backup
  spare : List backup

/-- Decode a JSON value into the `[]backup` field: `null` sets the slice to
nil, the empty array to a fresh empty slice, and a non-empty array of length
`n` decodes its elements into the first `n` slots and sets the length to
`n`. -/
def decodeData (old : SliceState) : Json → Option SliceState
  | Json.null => some { items := [], spare := [] }
  | Json.arr [] => some { items := [], spare := [] }
  | Json.arr vs =>
    match decodeElems (old.items ++ old.spare) vs with
    | some bs => some { items := bs, spare := (old.items ++ old.spare).drop vs.length }
    | none => none
  | _ => none

/-- One member of the listing object. -/
def decodeBackupsMember (s : SliceState) (key : String) (v : Json) : Option SliceState :=
  if keyMatches "data" key then decodeData s v else some s

/-- Model of `json.Unmarshal(body, &backups)` at main.go:64 with `backups`
the zero value; `none` is an error. -/
def unmarshalBackups : Json → Option backups
  | Json.null => some backups.zero
  | Json.obj ms =>
    (decodeMembers decodeBackupsMember { items := [], spare := [] } ms).map
      (fun s => { Data := s.items })
  | _ => none

/-- One member of the attributes object of the download response. -/
def decodeDownloadAttributeMember (a : downloadAttributes) (key : String) (v : Json) :
    Option downloadAttributes :=
  if keyMatches "url" key then (decodeString a.Url v).map (fun s => { a with Url := s })
  else some a

/-- Decode a JSON value into the attributes struct of `backupDownload`. -/
def decodeDownloadAttributes (old : downloadAttributes) : Json → Option downloadAttributes
  | Json.null => some old
  | Json.obj ms => decodeMembers decodeDownloadAttributeMember old ms
  | _ => none

/-- One member of the download response object. -/
def decodeDownloadMember (d : backupDownload) (key : String) (v : Json) :
    Option backupDownload :=
  if keyMatches "attributes" key then
    (decodeDownloadAttributes d.Attributes v).map (fun a => { d with Attributes := a })
  else some d

/-- Model of `json.Unmarshal(body, &backupDownload)` at main.go:93 with
`backupDownload` the zero value; `none` is an error. -/
def unmarshalBackupDownload : Json → Option backupDownload
  | Json.null => some backupDownload.zero
  | Json.obj ms => decodeMembers decodeDownloadMember backupDownload.zero ms
  | _ => none

/-! ## Timestamps: `time.Parse(time.RFC3339, ·)` and `Format("2006-01-02_15.04.05")` -/

/-- The wall-clock fields of a `time.Time` in its own location.  `time.Parse`
keeps the offset written in the text as the location of the result, so these
are the fields written in the text; the sub-second part and the offset are
parsed and checked but no layout element used at main.go:109 prints them. -/
structure Time where
  year : Nat
  month : Nat
  day : Nat
  hour : Nat
  minute : Nat
  second : Nat
  deriving DecidableEq, Repr

/-- Go `isLeap`. -/
def isLeap (year : Nat) : Bool :=
  year % 4 == 0 && (year % 100 != 0 || year % 400 == 0)

/-- Go `daysIn`: the number of days of a month of a year. -/
def daysIn (month year : Nat) : Nat :=
  if month = 2 then (if isLeap year then 29 else 28)
  else if month = 4 ∨ month = 6 ∨ month = 9 ∨ month = 11 then 30
  else 31

/-- Go `getnum(s, true)`: exactly two digits. -/
def getnumFixed : List Char → Option (Nat × List Char)
  | a :: b :: rest =>
    match digitVal a, digitVal b with
    | some x, some y => some (10 * x + y, rest)
    | _, _ => none
  | _ => none

/-- Go `getnum(s, false)`: one digit, or two when a second digit follows. -/
def getnum : List Char → Option (Nat × List Char)
  | [] => none
  | a :: rest =>
    match digitVal a with
    | none => none
    | some x =>
      match rest with
      | [] => some (x, [])
      | b :: rest2 =>
        match digitVal b with
        | some y => some (10 * x + y, rest2)
        | none => some (x, rest)

/-- The layout element `2006`: four characters, all digits. -/
def getYear : List Char → Option (Nat × List Char)
  | a :: b :: c :: d :: rest =>
    match digitsVal 0 [a, b, c, d] with
    | some y => some (y, rest)
    | none => none
  | _ => none

/-- A literal character of the layout. -/
def skipChar (c : Char) : List Char → Option (List Char)
  | [] => none
  | x :: rest => if x = c then some rest else none

/-- Drop the leading digits. -/
def dropDigits : List Char → List Char
  | [] => []
  | c :: cs => if (digitVal c).isSome then dropDigits cs else c :: cs

/-- A fractional second in the value where the layout has none: a period or
comma followed by at least one digit is consumed with all its digits;
anything else is left in place. -/
def skipFraction : List Char → List Char
  | sep :: d :: rest =>
    if (sep = '.' ∨ sep = ',') ∧ (digitVal d).isSome then dropDigits rest
    else sep :: d :: rest
  | cs => cs

/-- The layout element `Z07:00`: the letter `Z`, or a sign, two digits, a
colon and two digits, with the hour at most 24 and the minute at most 60.
The result is what is left of the value. -/
def getZone : List Char → Option (List Char)
  | 'Z' :: rest => some rest
  | sign :: h1 :: h2 :: c :: m1 :: m2 :: rest =>
    if c = ':' then
      match getnumFixed [h1, h2], getnumFixed [m1, m2] with
      | some (hr, _), some (mm, _) =>
        if hr ≤ 24 ∧ mm ≤ 60 ∧ (sign = '+' ∨ sign = '-') then some rest else none
      | _, _ => none
    else none
  | _ => none

/-- Model of `time.Parse` for the layout `time.RFC3339`
(`2006-01-02T15:04:05Z07:00`), on the characters of the value: the layout is
consumed element by element as the library does, including what it accepts
beyond RFC 3339 (a one-digit hour, a comma before the fraction, an offset of
`24:00` or `xx:60`) and what it rejects of RFC 3339 (a second of 60, lower
case `t` and `z`). -/
def parseRFC3339Chars (value : List Char) : Option Time :=
  match getYear value with
  | none => none
  | some (year, v1) =>
  match skipChar '-' v1 with
  | none => none
  | some v2 =>
  match getnumFixed v2 with
  | none => none
  | some (month, v3) =>
  match skipChar '-' v3 with
  | none => none
  | some v4 =>
  match getnumFixed v4 with
  | none => none
  | some (day, v5) =>
  match skipChar 'T' v5 with
  | none => none
  | some v6 =>
  match getnum v6 with
  | none => none
  | some (hour, v7) =>
  match skipChar ':' v7 with
  | none => none
  | some v8 =>
  match getnumFixed v8 with
  | none => none
  | some (minute, v9) =>
  match skipChar ':' v9 with
  | none => none
  | some v10 =>
  match getnumFixed v10 with
  | none => none
  | some (second, v11) =>
  match getZone (skipFraction v11) with
  | none => none
  | some rest =>
    if rest = [] ∧ 1 ≤ month ∧ month ≤ 12 ∧ hour < 24 ∧ minute < 60 ∧ second < 60
        ∧ 1 ≤ day ∧ day ≤ daysIn month year then
      some { year := year, month := month, day := day, hour := hour, minute := minute,
             second := second }
    else none

/-- Model of `time.Parse(time.RFC3339, value)` (main.go:106); `none` is an
error. -/
def timeParse (value : String) : Option Time := parseRFC3339Chars value.data

/-- The low `width` decimal digits of `n`, most significant first. -/
def zeroPad : Nat → Nat → List Char
  | 0, _ => []
  | w + 1, n => zeroPad w (n / 10) ++ [Nat.digitChar (n % 10)]

/-- Go `appendInt(b, n, width)` for a non-negative `n`: the decimal digits
of `n`, padded with zeros on the left to at least `width` characters. -/
def appendInt (n width : Nat) : List Char :=
  if n < 10 ^ width then zeroPad width n else Nat.toDigits 10 n

/-- Model of `t.Format("2006-01-02_15.04.05")` (main.go:109): the layout
splits into `2006`, `-`, `01`, `-`, `02`, `_`, `15`, `.`, `04`, `.`, `05`. -/
def Time.Format (t : Time) : String :=
  String.mk (appendInt t.year 4 ++ ['-'] ++ appendInt t.month 2 ++ ['-'] ++ appendInt t.day 2
    ++ ['_'] ++ appendInt t.hour 2 ++ ['.'] ++ appendInt t.minute 2 ++ ['.']
    ++ appendInt t.second 2)

/-! ## Paths: `filepath.Join` and the resolution of a path by the system -/

/-- Split at every `/`; `acc` holds the characters of the current component,
last first. -/
def splitSlashAux : List Char → List Char → List String
  | acc, [] => [String.mk acc.reverse]
  | acc, c :: cs =>
    if c = '/' then String.mk acc.reverse :: splitSlashAux [] cs
    else splitSlashAux (c :: acc) cs

/-- The components of a path between its separators (empty ones included). -/
def splitSlash (cs : List Char) : List String := splitSlashAux [] cs

/-- Join components with `/`. -/
def joinSlash : List String → String
  | [] => ""
  | [c] => c
  | c :: rest => c ++ "/" ++ joinSlash rest

/-- One component of the input of `filepath.Clean`, against the components
written so far (last first): empty and `.` components are dropped, `..`
removes the component before it, is dropped at the root, and is kept at the
front of a relative path. -/
def cleanStep (rooted : Bool) (out : List String) (c : String) : List String :=
  if c = "" ∨ c = "." then out
  else if c = ".." then
    match out with
    | top :: rest => if top = ".." then (if rooted then out else ".." :: out) else rest
    | [] => if rooted then [] else [".."]
  else c :: out

/-- Model of `filepath.Clean` (Unix), component by component. -/
def Clean (path : String) : String :=
  match path.data with
  | [] => "."
  | '/' :: cs => "/" ++ joinSlash ((splitSlash cs).foldl (cleanStep true) []).reverse
  | cs =>
    match ((splitSlash cs).foldl (cleanStep false) []).reverse with
    | [] => "."
    | out => joinSlash out

/-- Model of `filepath.Join(a, b)`: the elements from the first non-empty
one on are joined with `/` and cleaned; the result is empty when both are. -/
def Join (a b : String) : String :=
  if a ≠ "" then Clean (a ++ "/" ++ b)
  else if b ≠ "" then Clean b
  else ""

/-- A place in the directory tree: the components of its absolute path,
innermost first (`[]` is the root). -/
abbrev Loc := List String

/-- One component of a path being resolved: `.` and empty components stay,
`..` steps to the parent, a name steps down. -/
def pushComp (here : Loc) (c : String) : Loc :=
  if c = "" ∨ c = "." then here
  else if c = ".." then here.tail
  else c :: here

/-- The place a path names, from the working directory `cwd`; the empty path
names nothing.  A `..` steps to the parent whatever the component before it
is; the paths the program passes have `..` at the front only, where the
parent is that of the working directory. -/
def absolute (cwd : Loc) (s : String) : Option Loc :=
  match s.data with
  | [] => none
  | '/' :: cs => some ((splitSlash cs).foldl pushComp [])
  | cs => some ((splitSlash cs).foldl pushComp cwd)

/-! ## The filesystem -/

/-- Bytes of a file or of a response body. -/
abbrev Bytes := List (Fin 256)

/-- What is at a place: a directory or a regular file with its content. -/
inductive Node where
  | dir
  | file (content : Bytes)
  deriving DecidableEq, Repr

/-- A filesystem: the working directory of the process, what is at each
place, and what the system refuses.  The root, the working directory and its
ancestors are directories whatever `node` says.  `refused p`: resolving the
place `p` fails with an error other than ENOENT (a name longer than the
filesystem takes, no search permission).  `noRoom p`: no entry can be made
at `p` (no space left, a read-only filesystem, no write permission).  There
are no links. -/
structure FS where
  cwd : Loc
  node : Loc → Option Node
  refused : Loc → Bool
  noRoom : Loc → Bool

/-- What is at a place. -/
def FS.lookup (fs : FS) (p : Loc) : Option Node :=
  if p.isSuffixOf fs.cwd then some Node.dir else fs.node p

/-- Result of `os.Stat`: an entry, or one of the errors ENOENT (`notExist`,
the only one `os.IsNotExist` answers with true), ENOTDIR (`notDir`) and any
other error (`failed`). -/
inductive StatResult where
  | found (n : Node)
  | notExist
  | notDir
  | failed
  deriving DecidableEq, Repr

/-- Resolve a place: resolve its parent, which has to be a directory, then
look the last component up.  A missing component gives `notExist` (ENOENT),
a regular file used as a directory gives `notDir` (ENOTDIR), a component
the system refuses gives `failed`. -/
def FS.statLoc (fs : FS) : Loc → StatResult
  | [] => StatResult.found Node.dir
  | c :: parent =>
    match fs.statLoc parent with
    | StatResult.found Node.dir =>
      if fs.refused (c :: parent) then StatResult.failed
      else
        match fs.lookup (c :: parent) with
        | some n => StatResult.found n
        | none => StatResult.notExist
    | StatResult.found (Node.file _) => StatResult.notDir
    | StatResult.notExist => StatResult.notExist
    | StatResult.notDir => StatResult.notDir
    | StatResult.failed => StatResult.failed

/-- Model of `os.Stat(path)`. -/
def FS.stat (fs : FS) (path : String) : StatResult :=
  match absolute fs.cwd path with
  | none => StatResult.notExist
  | some p => fs.statLoc p

/-- Set what is at a place. -/
def FS.set (fs : FS) (p : Loc) (n : Node) : FS :=
  { fs with node := fun q => if q = p then some n else fs.node q }

/-- Whether the system lets an entry be made at a place. -/
def FS.canMake (fs : FS) (p : Loc) : Bool := !fs.refused p && !fs.noRoom p

/-- The system call `mkdir`: the parent has to resolve to a directory, the
place has to be free and the system must not refuse it. -/
def FS.mkdir (fs : FS) : Loc → Option FS
  | [] => none
  | c :: parent =>
    match fs.statLoc parent, fs.lookup (c :: parent) with
    | StatResult.found Node.dir, none =>
      if fs.canMake (c :: parent) then some (fs.set (c :: parent) Node.dir) else none
    | _, _ => none

/-- Go `os.MkdirAll` on a resolved place, with the filesystem it leaves and
whether it succeeded: nothing to do when the place is a directory, an error
when it is a file; otherwise the parent is made first, then the directory
itself, and a failure of `mkdir` is forgiven when the directory is there
after all.  What has been made stays when a later step fails. -/
def FS.mkdirAllRun (fs : FS) : Loc → FS × Bool
  | [] => (fs, true)
  | c :: parent =>
    match fs.statLoc (c :: parent) with
    | StatResult.found Node.dir => (fs, true)
    | StatResult.found (Node.file _) => (fs, false)
    | _ =>
      match fs.mkdirAllRun parent with
      | (fs1, false) => (fs1, false)
      | (fs1, true) =>
        match fs1.mkdir (c :: parent) with
        | some fs2 => (fs2, true)
        | none =>
          match fs1.statLoc (c :: parent) with
          | StatResult.found Node.dir => (fs1, true)
          | _ => (fs1, false)

/-- The filesystem after a successful `os.MkdirAll` on a resolved place;
`none` is an error. -/
def FS.mkdirAllLoc (fs : FS) (p : Loc) : Option FS :=
  if (fs.mkdirAllRun p).2 then some (fs.mkdirAllRun p).1 else none

/-- Model of `os.MkdirAll(path, os.ModePerm)`; `none` is an error. -/
def FS.mkdirAll (fs : FS) (path : String) : Option FS :=
  match absolute fs.cwd path with
  | none => none
  | some p => fs.mkdirAllLoc p

/-- The filesystem `os.MkdirAll(path, os.ModePerm)` leaves, whether it
succeeds or fails. -/
def FS.mkdirAllLeft (fs : FS) (path : String) : FS :=
  match absolute fs.cwd path with
  | none => fs
  | some p => (fs.mkdirAllRun p).1

/-- Model of `os.Create(name)`: the parent has to resolve to a directory,
the place must not be a directory and the system must not refuse it; a file
that is there is truncated, a file that is not is made when there is room.
The result is the new filesystem and the place of the open file. -/
def FS.create (fs : FS) (name : String) : Option (FS × Loc) :=
  match absolute fs.cwd name with
  | none => none
  | some [] => none
  | some (c :: parent) =>
    if fs.refused (c :: parent) then none
    else
      match fs.statLoc parent, fs.lookup (c :: parent) with
      | StatResult.found Node.dir, some Node.dir => none
      | StatResult.found Node.dir, some (Node.file _) =>
        some (fs.set (c :: parent) (Node.file []), c :: parent)
      | StatResult.found Node.dir, none =>
        if fs.noRoom (c :: parent) then none
        else some (fs.set (c :: parent) (Node.file []), c :: parent)
      | _, _ => none

/-- Append bytes to the open file at a place. -/
def FS.append (fs : FS) (p : Loc) (data : Bytes) : FS :=
  match fs.node p with
  | some (Node.file old) => fs.set p (Node.file (old ++ data))
  | _ => fs.set p (Node.file data)

/-- The content of the regular file a path names, if there is one. -/
def FS.readFile (fs : FS) (path : String) : Option Bytes :=
  match fs.stat path with
  | StatResult.found (Node.file b) => some b
  | _ => none

/-! ## The outside world and the run of `main` -/

/-- An HTTP request as the program builds it: method, target and the headers
it adds itself, in the order of the `Header.Add` calls. -/
structure Request where
  method : String
  url : String
  header : List (String × String)
  deriving DecidableEq, Repr

/-- What a panel request comes to once the client has followed the
redirects, if any: `client.Do` fails, reading the body fails, or a body is
read, which (as the client delivers it) is a JSON text (`some`) or is not
(`none`).  The status code is not looked at. -/
inductive PanelReply where
  | doError
  | readError
  | body (json : Option Json)

/-- What the GET of the archive comes to once the client has followed the
redirects, if any: `http.Get` fails, or a response.  `wire` is the body of
the HTTP response.  The program sets no `Accept-Encoding`, so the transport
asks for gzip on its own and decodes an answer that carries
`Content-Encoding: gzip`: `gzip = some d` is such an answer, `d` being the
decoded bytes, and `gzip = none` is any other answer.  `readFails`: reading
breaks with an error after the bytes have been delivered. -/
inductive ArchiveReply where
  | getError
  | body (wire : Bytes) (gzip : Option Bytes) (readFails : Bool)

/-- The bytes `resp.Body` delivers: the decoded bytes of an answer the
transport decodes, the body of the response otherwise. -/
def delivered (wire : Bytes) (gzip : Option Bytes) : Bytes := gzip.getD wire

/-- The test of `net/http` behind `shouldCopyHeaderOnRedirect`: the host
`sub` is the host `parent` or a subdomain of it (a host with a `:` or `%`
is no subdomain). -/
def isDomainOrSubdomain (sub parent : String) : Bool :=
  decide (sub = parent)
    || (!sub.data.any (fun c => c == ':' || c == '%')
        && ('.' :: parent.data).isSuffixOf sub.data)

/-- A redirect the client follows: the target, and whether the client's rule
for sensitive headers (`shouldCopyHeaderOnRedirect`: the target is the host
of the first request or a subdomain of it) lets them go along. -/
structure Hop where
  url : String
  keepsAuth : Bool
  deriving DecidableEq, Repr

/-- The answers of the outside world.  `urlParse s` is the result of
`url.Parse(s)` printed back with `String()`, `none` when parsing fails;
`http.NewRequest` fails exactly when `url.Parse` of its target does.
`redirects r` are the redirects the servers answer with while the client
serves the request `r` (`http.Client{}` follows up to ten); `listing`,
`download` and `archive` are what the request comes to in the end. -/
structure World where
  urlParse : String → Option String
  listing : Request → PanelReply
  download : Request → PanelReply
  archive : Request → ArchiveReply
  redirects : Request → List Hop

/-- The four command-line flags (main.go:22-25); `flags.GetString` cannot
fail on them, they are registered as string flags. -/
structure Args where
  url : String
  apiKey : String
  serverId : String
  backupDir : String
  deriving DecidableEq, Repr

/-- An effect of the run on the outside: a request handed to the HTTP client
(`client.Do`, `http.Get`), a call of `os.MkdirAll`, a call of `os.Create`
that succeeded, and the bytes `io.Copy` wrote to the file.  The requests the
client sends on its own after a redirect are not effects of the program;
`wireRequests` lists them. -/
inductive Effect where
  | send (req : Request)
  | mkdirAll (path : String)
  | create (name : String)
  | write (name : String) (data : Bytes)
  deriving DecidableEq, Repr

/-- The argument of `log.Fatal`: an error made by `errors.New` in `main`, or
the error a library call returned to `check`. -/
inductive Fatal where
  | message (msg : String)
  | failed (call : String)
  deriving DecidableEq, Repr

/-- The end of a run: the effects in the order they happened, the filesystem
left behind, and the fatal error, if any (`none`: `main` returned). -/
structure Outcome where
  effects : List Effect
  fs : FS
  fatal : Option Fatal

/-- A request to the panel with the two headers of main.go:50-51 and
main.go:79-80. -/
def panelRequest (url apiKey : String) : Request :=
  { method := "GET", url := url,
    header := [("Accept", "application/json"), ("Authorization", "Bearer " ++ apiKey)] }

/-- The request `http.Get(url)` sends: no header is added by the program. -/
def getRequest (url : String) : Request :=
  { method := "GET", url := url, header := [] }

/-- The target of the listing request (main.go:48). -/
def listingUrl (base serverId : String) : String :=
  base ++ "api/client/servers/" ++ serverId ++ "/backups"

/-- The target of the download-resolution request (main.go:77). -/
def downloadUrl (base serverId uuid : String) : String :=
  base ++ "api/client/servers/" ++ serverId ++ "/backups/" ++ uuid ++ "/download"

/-- The selection of main.go:67-75: fail on an empty `Data`, take the element
at index `len-1`, fail when it is not successful. -/
def selectTarget (bs : backups) : Except Fatal backup :=
  if h : bs.Data.length = 0 then
    Except.error (Fatal.message "no backups available")
  else
    let targetBackup := bs.Data.get ⟨bs.Data.length - 1, by omega⟩
    if !targetBackup.Attributes.IsSuccessful then
      Except.error (Fatal.message "latest pterodactyl backup was not successful")
    else Except.ok targetBackup

/-- The name passed to `os.Create` (main.go:109). -/
def outputName (path : String) (t : Time) : String :=
  path ++ "/" ++ t.Format ++ ".tar.gz"

/-- The directory step (main.go:100-104): `MkdirAll` is called when `Stat`
reports that the path does not exist, and only then. -/
def ensureDir (fs : FS) (path : String) : Option (FS × List Effect) :=
  match fs.stat path with
  | StatResult.notExist =>
    match fs.mkdirAll path with
    | none => none
    | some fs1 => some (fs1, [Effect.mkdirAll path])
  | _ => some (fs, [])

/-- Lines 96-114 of `main`: GET the signed URL, ensure the directory, parse
the timestamp, create the file and copy the body into it.  `done` are the
effects so far. -/
def fetchAndStore (w : World) (a : Args) (fs : FS) (done : List Effect)
    (targetBackup : backup) (backupDownload : backupDownload) : Outcome :=
  match w.urlParse backupDownload.Attributes.Url with
  | none => { effects := done, fs := fs, fatal := some (Fatal.failed "http.Get") }
  | some _ =>
  let get := getRequest backupDownload.Attributes.Url
  let done1 := done ++ [Effect.send get]
  match w.archive get with
  | ArchiveReply.getError =>
    { effects := done1, fs := fs, fatal := some (Fatal.failed "http.Get") }
  | ArchiveReply.body wire gzip readFails =>
  let data := delivered wire gzip
  let path := Join a.backupDir a.serverId
  match ensureDir fs path with
  | none =>
    { effects := done1 ++ [Effect.mkdirAll path], fs := fs.mkdirAllLeft path,
      fatal := some (Fatal.failed "os.MkdirAll") }
  | some (fs1, made) =>
  let done2 := done1 ++ made
  match timeParse targetBackup.Attributes.CreatedAt with
  | none => { effects := done2, fs := fs1, fatal := some (Fatal.failed "time.Parse") }
  | some t =>
  let name := outputName path t
  match fs1.create name with
  | none => { effects := done2, fs := fs1, fatal := some (Fatal.failed "os.Create") }
  | some (fs2, out) =>
  let done3 := done2 ++ [Effect.create name, Effect.write name data]
  { effects := done3, fs := fs2.append out data,
    fatal := if readFails then some (Fatal.failed "io.Copy") else none }

/-- Lines 67-94 of `main`: select the target backup and resolve its download
URL. -/
def resolveAndFetch (w : World) (a : Args) (fs : FS) (done : List Effect) (base : String)
    (bs : backups) : Outcome :=
  match selectTarget bs with
  | Except.error e => { effects := done, fs := fs, fatal := some e }
  | Except.ok targetBackup =>
  let target := downloadUrl base a.serverId targetBackup.Attributes.Uuid
  match w.urlParse target with
  | none => { effects := done, fs := fs, fatal := some (Fatal.failed "http.NewRequest") }
  | some _ =>
  let req := panelRequest target a.apiKey
  let done1 := done ++ [Effect.send req]
  match w.download req with
  | PanelReply.doError =>
    { effects := done1, fs := fs, fatal := some (Fatal.failed "client.Do") }
  | PanelReply.readError =>
    { effects := done1, fs := fs, fatal := some (Fatal.failed "ioutil.ReadAll") }
  | PanelReply.body none =>
    { effects := done1, fs := fs, fatal := some (Fatal.failed "json.Unmarshal") }
  | PanelReply.body (some j) =>
  match unmarshalBackupDownload j with
  | none => { effects := done1, fs := fs, fatal := some (Fatal.failed "json.Unmarshal") }
  | some backupDownload => fetchAndStore w a fs done1 targetBackup backupDownload

/-- The run of `main` (main.go:34-115) on the flags `a`, in the world `w`,
from the filesystem `fs`. -/
def main (w : World) (a : Args) (fs : FS) : Outcome :=
  match w.urlParse a.url with
  | none => { effects := [], fs := fs, fatal := some (Fatal.failed "url.Parse") }
  | some base =>
  let target := listingUrl base a.serverId
  match w.urlParse target with
  | none => { effects := [], fs := fs, fatal := some (Fatal.failed "http.NewRequest") }
  | some _ =>
  let req := panelRequest target a.apiKey
  let done := [Effect.send req]
  match w.listing req with
  | PanelReply.doError =>
    { effects := done, fs := fs, fatal := some (Fatal.failed "client.Do") }
  | PanelReply.readError =>
    { effects := done, fs := fs, fatal := some (Fatal.failed "ioutil.ReadAll") }
  | PanelReply.body none =>
    { effects := done, fs := fs, fatal := some (Fatal.failed "json.Unmarshal") }
  | PanelReply.body (some j) =>
  match unmarshalBackups j with
  | none => { effects := done, fs := fs, fatal := some (Fatal.failed "json.Unmarshal") }
  | some bs => resolveAndFetch w a fs done base bs

/-! ## Observations on a run -/

/-- The requests among the effects, in order. -/
def sent : List Effect → List Request
  | [] => []
  | Effect.send r :: es => r :: sent es
  | _ :: es => sent es

/-- The names passed to `os.Create` among the effects, in order. -/
def created : List Effect → List String
  | [] => []
  | Effect.create name :: es => name :: created es
  | _ :: es => created es

/-- The names of the headers the client drops on a redirect that its rule
does not let them follow. -/
def sensitiveHeaders : List String := ["Authorization", "Www-Authenticate", "Cookie", "Cookie2"]

/-- The request the client sends after a redirect of the request `first`:
the same method (a GET stays a GET), the new target, and the headers of
`first`, without the sensitive ones when the rule says so.  (What the client
adds on its own account, such as `Referer` and `User-Agent`, is left out as
it is for the first request.) -/
def hopRequest (first : Request) (h : Hop) : Request :=
  { method := first.method, url := h.url,
    header := if h.keepsAuth then first.header
              else first.header.filter (fun kv => decide (kv.1 ∉ sensitiveHeaders)) }

/-- The requests that go over the wire for the effects of a run: every
request handed to the client, followed by the requests the client sends
after each redirect of it. -/
def wireRequests (w : World) : List Effect → List Request
  | [] => []
  | Effect.send r :: es => r :: (w.redirects r).map (hopRequest r) ++ wireRequests w es
  | _ :: es => wireRequests w es

/-- Whether a request carries an `Authorization` header. -/
def carriesAuth (q : Request) : Bool := q.header.any (fun kv => decide (kv.1 = "Authorization"))

/-! ## The stages of a run that goes through -/

/-- The values a run meets on its way to the output file. -/
structure Steps where
  base : String
  listing : Json
  bs : backups
  targetBackup : backup
  ticket : Json
  backupDownload : backupDownload
  wire : Bytes
  gzip : Option Bytes
  readFails : Bool
  fs1 : FS
  made : List Effect
  t : Time
  fs2 : FS
  out : Loc

/-- The listing request of the run. -/
def Steps.listingRequest (r : Steps) (a : Args) : Request :=
  panelRequest (listingUrl r.base a.serverId) a.apiKey

/-- The download-resolution request of the run. -/
def Steps.downloadRequest (r : Steps) (a : Args) : Request :=
  panelRequest (downloadUrl r.base a.serverId r.targetBackup.Attributes.Uuid) a.apiKey

/-- The bytes the client delivers as the body of the archive response. -/
def Steps.data (r : Steps) : Bytes := delivered r.wire r.gzip

/-- The request for the archive. -/
def Steps.archiveRequest (r : Steps) : Request :=
  getRequest r.backupDownload.Attributes.Url

/-- The directory of the output file, `path` of main.go:100. -/
def Args.path (a : Args) : String := Join a.backupDir a.serverId

/-- The name of the output file. -/
def Steps.name (r : Steps) (a : Args) : String := outputName (a.path) r.t

/-- The listing has been received and decoded (main.go:35-65). -/
structure Listed (w : World) (a : Args) (r : Steps) : Prop where
  hbase : w.urlParse a.url = some r.base
  hlistUrl : (w.urlParse (listingUrl r.base a.serverId)).isSome = true
  hlisting : w.listing (r.listingRequest a) = PanelReply.body (some r.listing)
  hbs : unmarshalBackups r.listing = some r.bs

/-- The target is selected and the download response decoded (main.go:67-94). -/
structure Resolved (w : World) (a : Args) (r : Steps) extends Listed w a r : Prop where
  htarget : selectTarget r.bs = Except.ok r.targetBackup
  hdownUrl :
    (w.urlParse (downloadUrl r.base a.serverId r.targetBackup.Attributes.Uuid)).isSome = true
  hticket : w.download (r.downloadRequest a) = PanelReply.body (some r.ticket)
  hdownload : unmarshalBackupDownload r.ticket = some r.backupDownload

/-- The archive response is there and the directory step is done
(main.go:96-104). -/
structure Fetched (w : World) (a : Args) (fs : FS) (r : Steps) extends Resolved w a r : Prop where
  hgetUrl : (w.urlParse r.backupDownload.Attributes.Url).isSome = true
  harchive : w.archive r.archiveRequest = ArchiveReply.body r.wire r.gzip r.readFails
  hdir : ensureDir fs (a.path) = some (r.fs1, r.made)

/-- The timestamp is parsed and the output file created (main.go:106-110). -/
structure Stores (w : World) (a : Args) (fs : FS) (r : Steps) extends Fetched w a fs r : Prop where
  htime : timeParse r.targetBackup.Attributes.CreatedAt = some r.t
  hcreate : r.fs1.create (r.name a) = some (r.fs2, r.out)

/-- The three requests of a run that gets as far as the archive. -/
def Steps.requests (r : Steps) (a : Args) : List Effect :=
  [Effect.send (r.listingRequest a), Effect.send (r.downloadRequest a),
   Effect.send r.archiveRequest]

/-- The end of a run that creates the output file. -/
def Steps.outcome (r : Steps) (a : Args) : Outcome :=
  { effects := r.requests a ++ r.made
      ++ [Effect.create (r.name a), Effect.write (r.name a) r.data]
    fs := r.fs2.append r.out r.data
    fatal := if r.readFails then some (Fatal.failed "io.Copy") else none }

/-! ## Notions of the specification -/

/-- RFC 3339 `time-secfrac`, which is optional: a period and one or more
digits.  The result is what follows it. -/
def readFraction : List Char → Option (List Char)
  | '.' :: d :: rest => if (digitVal d).isSome then some (dropDigits rest) else none
  | '.' :: [] => none
  | v => some v

/-- RFC 3339 `time-offset`: `Z` (or `z`), or a sign, a two-digit hour up to
23, a colon and a two-digit minute up to 59.  The result is what follows it
and whether the letter, if any, is upper case. -/
def readOffset : List Char → Option (List Char × Bool)
  | 'Z' :: rest => some (rest, true)
  | 'z' :: rest => some (rest, false)
  | sign :: h1 :: h2 :: c :: m1 :: m2 :: rest =>
    if c = ':' ∧ (sign = '+' ∨ sign = '-') then
      match getnumFixed [h1, h2], getnumFixed [m1, m2] with
      | some (hr, _), some (mm, _) => if hr ≤ 23 ∧ mm ≤ 59 then some (rest, true) else none
      | _, _ => none
    else none
  | _ => none

/-- The separator of date and time in RFC 3339: `T` (or `t`). -/
def readT : List Char → Option (List Char × Bool)
  | 'T' :: rest => some (rest, true)
  | 't' :: rest => some (rest, false)
  | _ => none

/-- The grammar `date-time` of RFC 3339, section 5.6, with the restrictions
of section 5.7: four-digit year, two-digit month 01-12, day 01 up to the
length of the month, `T`, two-digit hour 00-23, minute 00-59, second 00-60
(60 for a leap second), an optional fraction, and an offset.  The result is
the fields as written and whether the letters are upper case; `none` when
the characters are not a timestamp of the grammar. -/
def readRFC3339 (value : List Char) : Option (Time × Bool) :=
  match getYear value with
  | none => none
  | some (year, v1) =>
  match skipChar '-' v1 with
  | none => none
  | some v2 =>
  match getnumFixed v2 with
  | none => none
  | some (month, v3) =>
  match skipChar '-' v3 with
  | none => none
  | some v4 =>
  match getnumFixed v4 with
  | none => none
  | some (day, v5) =>
  match readT v5 with
  | none => none
  | some (v6, upperT) =>
  match getnumFixed v6 with
  | none => none
  | some (hour, v7) =>
  match skipChar ':' v7 with
  | none => none
  | some v8 =>
  match getnumFixed v8 with
  | none => none
  | some (minute, v9) =>
  match skipChar ':' v9 with
  | none => none
  | some v10 =>
  match getnumFixed v10 with
  | none => none
  | some (second, v11) =>
  match readFraction v11 with
  | none => none
  | some v12 =>
  match readOffset v12 with
  | none => none
  | some (rest, upperZ) =>
    if rest = [] ∧ 1 ≤ month ∧ month ≤ 12 ∧ 1 ≤ day ∧ day ≤ daysIn month year ∧ hour ≤ 23
        ∧ minute ≤ 59 ∧ second ≤ 60 then
      some ({ year := year, month := month, day := day, hour := hour, minute := minute,
              second := second }, upperT && upperZ)
    else none

/-- The value of the one member of an object whose key selects the field
named `field`; `none` when no member does or more than one. -/
def onlyMember (field : String) (ms : List (String × Json)) : Option Json :=
  match ms.filter (fun kv => keyMatches field kv.1) with
  | [kv] => some kv.2
  | _ => none

/-- The string found in a JSON value by following member names from the top
(`data.attributes.url` is `["data", "attributes", "url"]`). -/
def stringAt : List String → Json → Option String
  | [], Json.str s => some s
  | [], _ => none
  | k :: ks, Json.obj ms =>
    match onlyMember k ms with
    | some v => stringAt ks v
    | none => none
  | _ :: _, _ => none

/-- A filesystem is a tree: every entry has a directory above it. -/
def FS.WellFormed (fs : FS) : Prop :=
  ∀ c parent, (fs.node (c :: parent)).isSome = true → fs.lookup parent = some Node.dir

/-- What `MkdirAll` leaves behind when it makes the directory at `p`: the
directory and all its ancestors are there, and nothing else has changed. -/
structure Made (fs fs1 : FS) (p : Loc) : Prop where
  cwd : fs1.cwd = fs.cwd
  refused : fs1.refused = fs.refused
  noRoom : fs1.noRoom = fs.noRoom
  dirs : ∀ q, q <:+ p → fs1.statLoc q = StatResult.found Node.dir
  frame : ∀ q, ¬ q <:+ p → fs1.node q = fs.node q

/-! ## A sample panel -/

namespace Sample

/-- A backup record object with the attributes the panel sends. -/
def record (uuid : String) (ok : Bool) (createdAt : String) : Json :=
  Json.obj [("object", Json.str "backup"),
    ("attributes", Json.obj [("uuid", Json.str uuid), ("name", Json.str "nightly"),
      ("is_successful", Json.bool ok), ("checksum", Json.null), ("bytes", Json.num "1024"),
      ("created_at", Json.str createdAt), ("completed_at", Json.null)])]

/-- A listing of two backups: the first failed and is the newer one by its
`created_at`, the second is as given. -/
def listingJson (uuid : String) (ok : Bool) (createdAt : String) : Json :=
  Json.obj [("object", Json.str "list"),
    ("data", Json.arr [record "aaaa" false "2022-06-01T10:00:00Z", record uuid ok createdAt])]

/-- The struct `record` decodes into. -/
def decodedRecord (uuid : String) (ok : Bool) (createdAt : String) : backup :=
  { Attributes := { Uuid := uuid, Name := "nightly", IsSuccessful := ok, Checksum := "",
                    Bytes := 1024, CreatedAt := createdAt, CompletedAt := "" } }

/-- The struct `listingJson` decodes into. -/
def decodedListing (uuid : String) (ok : Bool) (createdAt : String) : backups :=
  { Data := [decodedRecord "aaaa" false "2022-06-01T10:00:00Z", decodedRecord uuid ok createdAt] }

/-- The signed URL of the sample. -/
def signedUrl : String := "https://node.example.com/dl?token=t"

/-- A download response in the shape the struct tags expect. -/
def ticketJson : Json :=
  Json.obj [("object", Json.str "signed_url"),
    ("attributes", Json.obj [("url", Json.str signedUrl)])]

/-- A download response with the attributes wrapped in a `data` member. -/
def wrappedTicketJson : Json :=
  Json.obj [("data", Json.obj [("object", Json.str "signed_url"),
    ("attributes", Json.obj [("url", Json.str signedUrl)])])]

/-- The archive bytes. -/
def archiveBytes : Bytes := [31, 139, 8, 0, 255]

/-- A hexadecimal digit. -/
def isHex (c : Char) : Bool :=
  decide ((48 ≤ c.toNat ∧ c.toNat ≤ 57) ∨ (65 ≤ c.toNat ∧ c.toNat ≤ 70)
    ∨ (97 ≤ c.toNat ∧ c.toNat ≤ 102))

/-- Whether every `%` is followed by two hexadecimal digits, as `url.Parse`
requires. -/
def escapesOk : List Char → Bool
  | [] => true
  | '%' :: a :: b :: rest => isHex a && isHex b && escapesOk rest
  | '%' :: _ => false
  | _ :: rest => escapesOk rest

/-- URL parsing on the sample targets: a target with a broken escape is
refused, the others are printed back as they are. -/
def urlParse (s : String) : Option String := if escapesOk s.data then some s else none

/-- The panel of the sample at `https://panel.example.com/` for the server
`1a2b`: it answers the listing request and the download-resolution request
for the backup `uuid` when they carry the key `key`, and the archive is
served at the signed URL. -/
def world (key uuid : String) (listing ticket : Json) : World :=
  { urlParse := urlParse
    redirects := fun _ => []
    listing := fun r =>
      if r = panelRequest "https://panel.example.com/api/client/servers/1a2b/backups" key then
        PanelReply.body (some listing)
      else PanelReply.doError
    download := fun r =>
      if r = panelRequest ("https://panel.example.com/api/client/servers/1a2b/backups/"
          ++ uuid ++ "/download") key then PanelReply.body (some ticket)
      else PanelReply.doError
    archive := fun r =>
      if r = getRequest signedUrl then ArchiveReply.body archiveBytes none false
      else ArchiveReply.getError }

/-- Flags with a base URL that ends in a slash. -/
def args (key : String) : Args :=
  { url := "https://panel.example.com/", apiKey := key, serverId := "1a2b",
    backupDir := "./backups" }

/-- Flags with a base URL that does not end in a slash. -/
def argsNoSlash : Args :=
  { url := "https://panel.example.com", apiKey := "key", serverId := "1a2b",
    backupDir := "./backups" }

/-- Whether a place has a component longer than 255 bytes, the longest name
the usual filesystems take. -/
def nameTooLong (p : Loc) : Bool := p.any (fun c => decide (255 < c.utf8ByteSize))

/-- A filesystem with nothing below the working directory `/home/u`, with
room everywhere; names longer than 255 bytes are refused. -/
def emptyFS : FS :=
  { cwd := ["u", "home"], node := fun _ => none, refused := nameTooLong,
    noRoom := fun _ => false }

/-- A filesystem in which `backups` is a regular file. -/
def blockedFS : FS :=
  { cwd := ["u", "home"],
    node := fun p => if p = ["backups", "u", "home"] then some (Node.file []) else none,
    refused := nameTooLong, noRoom := fun _ => false }

/-- A filesystem like `emptyFS` on which no entry can be made below
`backups`. -/
def fullFS : FS :=
  { emptyFS with noRoom := fun p => decide (p = ["1a2b", "backups", "u", "home"]) }

/-- The place of the directory `backups/1a2b`. -/
def dirLoc : Loc := ["1a2b", "backups", "u", "home"]

/-- The filesystem after the directory step from `emptyFS`. -/
def dirFS : FS := (emptyFS.set ["backups", "u", "home"] Node.dir).set dirLoc Node.dir

/-- The values of the run of the sample on `emptyFS` in which the last
record has the given `uuid` and `created_at`, and `t` is the parsed
timestamp (used from the parse on only). -/
def steps (uuid : String) (ok : Bool) (createdAt : String) (t : Time) : Steps :=
  { base := "https://panel.example.com/"
    listing := listingJson uuid ok createdAt
    bs := decodedListing uuid ok createdAt
    targetBackup := decodedRecord uuid ok createdAt
    ticket := ticketJson
    backupDownload := { Attributes := { Url := signedUrl } }
    wire := archiveBytes
    gzip := none
    readFails := false
    fs1 := dirFS
    made := [Effect.mkdirAll "backups/1a2b"]
    t := t
    fs2 := dirFS.set ((t.Format ++ ".tar.gz") :: dirLoc) (Node.file [])
    out := (t.Format ++ ".tar.gz") :: dirLoc }

/-- The sample panel whose last record has the given `uuid`, success flag
and `created_at`, for the key `key`. -/
def panel (uuid : String) (ok : Bool) (createdAt : String) : World :=
  world "key" uuid (listingJson uuid ok createdAt) ticketJson

/-- The sample panel of the scenario of the specification: the last record
succeeded and was created at `2022-01-01T00:00:00Z`. -/
def panel2022 : World := panel "bbbb" true "2022-01-01T00:00:00Z"

/-- The values of the run on `panel2022`. -/
def steps2022 : Steps :=
  steps "bbbb" true "2022-01-01T00:00:00Z"
    { year := 2022, month := 1, day := 1, hour := 0, minute := 0, second := 0 }

/-- The values of the run on the panel whose last record was created at
`2023-05-01T12:30:45Z`. -/
def steps2023 : Steps :=
  steps "bbbb" true "2023-05-01T12:30:45Z"
    { year := 2023, month := 5, day := 1, hour := 12, minute := 30, second := 45 }

/-- The values of the run on the panel whose last record has the
`created_at` value `yesterday`, as far as the directory step. -/
def stepsYesterday : Steps :=
  steps "bbbb" true "yesterday"
    { year := 0, month := 0, day := 0, hour := 0, minute := 0, second := 0 }

/-- A listing without records. -/
def emptyListingJson : Json := Json.obj [("object", Json.str "list"), ("data", Json.arr [])]

/-- The values of the run on the listing without records. -/
def stepsEmpty : Steps :=
  { steps2022 with listing := emptyListingJson, bs := { Data := [] } }

/-- The gzip encoding of the two bytes `hi` (22 bytes). -/
def gzipBody : Bytes :=
  [31, 139, 8, 0, 0, 0, 0, 0, 2, 3, 203, 200, 4, 0, 172, 42, 147, 216, 2, 0, 0, 0]

/-- The sample panel with an archive server that answers with
`Content-Encoding: gzip`: the body of the response is `gzipBody`, which the
transport decodes to the two bytes `hi`. -/
def gzipWorld : World :=
  { panel2022 with
    archive := fun r =>
      if r = getRequest signedUrl then ArchiveReply.body gzipBody (some [104, 105]) false
      else ArchiveReply.getError }

/-- The values of the run on `gzipWorld`. -/
def stepsGzip : Steps := { steps2022 with wire := gzipBody, gzip := some [104, 105] }

/-- The sample panel behind a redirect: the listing request is answered with
a redirect to the host `mirror.panel.example.com`, a subdomain of the panel
host, to which the client lets the sensitive headers go along. -/
def redirectWorld : World :=
  { panel2022 with
    redirects := fun r =>
      if r = panelRequest "https://panel.example.com/api/client/servers/1a2b/backups" "key" then
        [{ url := "https://mirror.panel.example.com/api/client/servers/1a2b/backups",
           keepsAuth := isDomainOrSubdomain "mirror.panel.example.com" "panel.example.com" }]
      else [] }

/-- Flags whose backup directory is a name of 256 bytes below the missing
directory `missing`. -/
def argsLong : Args :=
  { url := "https://panel.example.com/", apiKey := "key", serverId := "1a2b",
    backupDir := "missing/" ++ String.mk (List.replicate 256 'x') }

end Sample

/-! ## Lemmas on the run -/

/-- The requests of two effect lists in a row. -/
theorem sent_append (xs ys : List Effect) : sent (xs ++ ys) = sent xs ++ sent ys := by
  induction xs with
  | nil => rfl
  | cons e es ih => cases e <;> simp [sent, ih]

/-- The two ways the directory step succeeds: nothing to do, or `MkdirAll`. -/
theorem ensureDir_cases {fs fs1 : FS} {path : String} {made : List Effect}
    (h : ensureDir fs path = some (fs1, made)) :
    (fs.stat path ≠ StatResult.notExist ∧ fs1 = fs ∧ made = [])
    ∨ (fs.stat path = StatResult.notExist ∧ fs.mkdirAll path = some fs1
        ∧ made = [Effect.mkdirAll path]) := by
  unfold ensureDir at h
  rcases hs : fs.stat path with n | _ | _ | _
  · simp [hs] at h; simp [h]
  · rcases hm : fs.mkdirAll path with _ | fs'
    · simp [hs, hm] at h
    · simp [hs, hm] at h; simp [h]
  · simp [hs] at h; simp [h]
  · simp [hs] at h; simp [h]

/-- The directory step sends no request. -/
theorem sent_made {fs fs1 : FS} {path : String} {made : List Effect}
    (h : ensureDir fs path = some (fs1, made)) : sent made = [] := by
  rcases ensureDir_cases h with ⟨_, _, hm⟩ | ⟨_, _, hm⟩ <;> simp [hm, sent]

/-- The directory step creates no file. -/
theorem create_not_mem_made {fs fs1 : FS} {path name : String} {made : List Effect}
    (h : ensureDir fs path = some (fs1, made)) : Effect.create name ∉ made := by
  rcases ensureDir_cases h with ⟨_, _, hm⟩ | ⟨_, _, hm⟩ <;> simp [hm]

/-- After a decoded listing the run is `resolveAndFetch`. -/
theorem main_of_listed {w : World} {a : Args} {r : Steps} (fs : FS) (h : Listed w a r) :
    main w a fs = resolveAndFetch w a fs [Effect.send (r.listingRequest a)] r.base r.bs := by
  obtain ⟨h1, h2, h3, h4⟩ := h
  obtain ⟨x2, h2⟩ := Option.isSome_iff_exists.mp h2
  simp only [Steps.listingRequest] at h3 ⊢
  simp [main, h1, h2, h3, h4]

/-- After a decoded download response the run is `fetchAndStore`. -/
theorem main_of_resolved {w : World} {a : Args} {r : Steps} (fs : FS) (h : Resolved w a r) :
    main w a fs = fetchAndStore w a fs
      [Effect.send (r.listingRequest a), Effect.send (r.downloadRequest a)]
      r.targetBackup r.backupDownload := by
  rw [main_of_listed fs h.toListed]
  obtain ⟨_, h5, h6, h7, h8⟩ := h
  obtain ⟨x6, h6⟩ := Option.isSome_iff_exists.mp h6
  simp only [Steps.downloadRequest] at h7 ⊢
  simp [resolveAndFetch, h5, h6, h7, h8]

/-- After the directory step the run depends on the parse of the timestamp and on `os.Create` only. -/
theorem main_of_fetched {w : World} {a : Args} {fs : FS} {r : Steps} (h : Fetched w a fs r) :
    main w a fs =
      match timeParse r.targetBackup.Attributes.CreatedAt with
      | none => { effects := r.requests a ++ r.made, fs := r.fs1,
                  fatal := some (Fatal.failed "time.Parse") }
      | some t =>
        match r.fs1.create (outputName (a.path) t) with
        | none => { effects := r.requests a ++ r.made, fs := r.fs1,
                    fatal := some (Fatal.failed "os.Create") }
        | some (fs2, out) =>
          { effects := r.requests a ++ r.made
              ++ [Effect.create (outputName (a.path) t),
                  Effect.write (outputName (a.path) t) r.data]
            fs := fs2.append out r.data
            fatal := if r.readFails then some (Fatal.failed "io.Copy") else none } := by
  rw [main_of_resolved fs h.toResolved]
  obtain ⟨_, h9, h10, h11⟩ := h
  obtain ⟨x9, h9⟩ := Option.isSome_iff_exists.mp h9
  simp only [Steps.archiveRequest, Args.path] at h10 h11 ⊢
  simp only [fetchAndStore, h9, h10, h11, Steps.requests, Steps.archiveRequest]
  rcases timeParse r.targetBackup.Attributes.CreatedAt with _ | t
  · simp
  · rfl

/-- A run that creates the output file ends as `Steps.outcome` says. -/
theorem main_of_stores {w : World} {a : Args} {fs : FS} {r : Steps} (h : Stores w a fs r) :
    main w a fs = r.outcome a := by
  rw [main_of_fetched h.toFetched]
  have h12 := h.htime
  have h13 := h.hcreate
  simp only [Steps.name] at h13
  simp [h12, h13, Steps.outcome, Steps.name]

/-- A selected target is the record at index `len-1`, and it is successful. -/
theorem selectTarget_ok {bs : backups} {tb : backup} (h : selectTarget bs = Except.ok tb) :
    ∃ hne : 1 ≤ bs.Data.length,
      tb = bs.Data.get ⟨bs.Data.length - 1, by omega⟩ ∧ tb.Attributes.IsSuccessful = true := by
  unfold selectTarget at h
  split at h
  · simp at h
  next hlen =>
    refine ⟨by omega, ?_⟩
    simp only at h
    split at h
    · simp at h
    next hs =>
      injection h with h
      subst h
      simpa using hs

/-- Selection on an empty data sequence. -/
theorem selectTarget_empty {bs : backups} (h : bs.Data.length = 0) :
    selectTarget bs = Except.error (Fatal.message "no backups available") := by
  simp [selectTarget, h]

/-- Selection when the last record is not successful. -/
theorem selectTarget_failed {bs : backups} (hne : 1 ≤ bs.Data.length)
    (h : (bs.Data.get ⟨bs.Data.length - 1, by omega⟩).Attributes.IsSuccessful = false) :
    selectTarget bs
      = Except.error (Fatal.message "latest pterodactyl backup was not successful") := by
  have : bs.Data.length ≠ 0 := by omega
  simp only [List.get_eq_getElem] at h
  simp [selectTarget, this, h]

/-- The effects `fetchAndStore` adds: at most the GET of the signed URL, and a file named after the timestamp of the target. -/
theorem fetchAndStore_shape (w : World) (a : Args) (fs : FS) (done : List Effect)
    (tb : backup) (bd : backupDownload) :
    ∃ extra, (fetchAndStore w a fs done tb bd).effects = done ++ extra
      ∧ (sent extra = [] ∨ sent extra = [getRequest bd.Attributes.Url])
      ∧ (∀ name, Effect.create name ∈ extra →
          ∃ t, timeParse tb.Attributes.CreatedAt = some t
            ∧ name = outputName (Join a.backupDir a.serverId) t) := by
  rcases h9 : w.urlParse bd.Attributes.Url with _ | x9
  · exact ⟨[], by simp [fetchAndStore, h9], Or.inl rfl, by simp⟩
  rcases h10 : w.archive (getRequest bd.Attributes.Url) with _ | ⟨wire, gz, rf⟩
  · exact ⟨[Effect.send (getRequest bd.Attributes.Url)], by simp [fetchAndStore, h9, h10],
      Or.inr rfl, by simp⟩
  rcases h11 : ensureDir fs (Join a.backupDir a.serverId) with _ | ⟨fs1, made⟩
  · exact ⟨[Effect.send (getRequest bd.Attributes.Url),
        Effect.mkdirAll (Join a.backupDir a.serverId)],
      by simp [fetchAndStore, h9, h10, h11], Or.inr rfl, by simp⟩
  have hm := sent_made h11
  have hc : ∀ name, Effect.create name ∉ made := fun name => create_not_mem_made h11
  rcases h12 : timeParse tb.Attributes.CreatedAt with _ | t
  · refine ⟨Effect.send (getRequest bd.Attributes.Url) :: made,
      by simp [fetchAndStore, h9, h10, h11, h12], Or.inr (by simp [sent, hm]), ?_⟩
    intro name hn
    simp [hc] at hn
  rcases h13 : fs1.create (outputName (Join a.backupDir a.serverId) t) with _ | ⟨fs2, out⟩
  · refine ⟨Effect.send (getRequest bd.Attributes.Url) :: made,
      by simp [fetchAndStore, h9, h10, h11, h12, h13], Or.inr (by simp [sent, hm]), ?_⟩
    intro name hn
    simp [hc] at hn
  · refine ⟨Effect.send (getRequest bd.Attributes.Url) :: (made ++
        [Effect.create (outputName (Join a.backupDir a.serverId) t),
         Effect.write (outputName (Join a.backupDir a.serverId) t) (delivered wire gz)]),
      by simp [fetchAndStore, h9, h10, h11, h12, h13],
      Or.inr (by simp [sent, sent_append, hm]), ?_⟩
    intro name hn
    simp [hc] at hn
    exact ⟨t, rfl, hn⟩

/-- The three ways `resolveAndFetch` goes: no target, a target whose request cannot be built, or the download-resolution request followed by what `fetchAndStore` adds. -/
theorem resolveAndFetch_shape (w : World) (a : Args) (fs : FS) (done : List Effect)
    (base : String) (bs : backups) :
    (∃ e, selectTarget bs = Except.error e
        ∧ resolveAndFetch w a fs done base bs = { effects := done, fs := fs, fatal := some e })
    ∨ (∃ tb, selectTarget bs = Except.ok tb
        ∧ w.urlParse (downloadUrl base a.serverId tb.Attributes.Uuid) = none
        ∧ resolveAndFetch w a fs done base bs
          = { effects := done, fs := fs, fatal := some (Fatal.failed "http.NewRequest") })
    ∨ (∃ tb extra, selectTarget bs = Except.ok tb
        ∧ (w.urlParse (downloadUrl base a.serverId tb.Attributes.Uuid)).isSome = true
        ∧ (resolveAndFetch w a fs done base bs).effects
          = done ++ Effect.send
              (panelRequest (downloadUrl base a.serverId tb.Attributes.Uuid) a.apiKey) :: extra
        ∧ (sent extra = [] ∨ ∃ u, sent extra = [getRequest u])
        ∧ (∀ name, Effect.create name ∈ extra →
            ∃ t, timeParse tb.Attributes.CreatedAt = some t
              ∧ name = outputName (Join a.backupDir a.serverId) t)) := by
  rcases h5 : selectTarget bs with e | tb
  · exact Or.inl ⟨e, rfl, by simp [resolveAndFetch, h5]⟩
  rcases h6 : w.urlParse (downloadUrl base a.serverId tb.Attributes.Uuid) with _ | x6
  · exact Or.inr (Or.inl ⟨tb, rfl, h6, by simp [resolveAndFetch, h5, h6]⟩)
  refine Or.inr (Or.inr ⟨tb, ?_⟩)
  rcases h7 : w.download (panelRequest (downloadUrl base a.serverId tb.Attributes.Uuid) a.apiKey)
    with _ | _ | (_ | jd)
  · exact ⟨[], rfl, by simp [h6], by simp [resolveAndFetch, h5, h6, h7], Or.inl rfl, by simp⟩
  · exact ⟨[], rfl, by simp [h6], by simp [resolveAndFetch, h5, h6, h7], Or.inl rfl, by simp⟩
  · exact ⟨[], rfl, by simp [h6], by simp [resolveAndFetch, h5, h6, h7], Or.inl rfl, by simp⟩
  rcases h8 : unmarshalBackupDownload jd with _ | bd
  · exact ⟨[], rfl, by simp [h6], by simp [resolveAndFetch, h5, h6, h7, h8], Or.inl rfl, by simp⟩
  obtain ⟨extra, he, hs, hc⟩ := fetchAndStore_shape w a fs
    (done ++ [Effect.send
      (panelRequest (downloadUrl base a.serverId tb.Attributes.Uuid) a.apiKey)]) tb bd
  refine ⟨extra, rfl, by simp [h6], ?_, ?_, hc⟩
  · simp [resolveAndFetch, h5, h6, h7, h8, he]
  · rcases hs with hs | hs
    · exact Or.inl hs
    · exact Or.inr ⟨_, hs⟩

/-- The requests of a run are an initial segment of: listing request, download-resolution request, GET of some URL. -/
theorem main_sent_initial (w : World) (a : Args) (fs : FS) :
    ∃ uuid u, sent (main w a fs).effects <+:
      [panelRequest (listingUrl ((w.urlParse a.url).getD "") a.serverId) a.apiKey,
       panelRequest (downloadUrl ((w.urlParse a.url).getD "") a.serverId uuid) a.apiKey,
       getRequest u] := by
  rcases h1 : w.urlParse a.url with _ | base
  · exact ⟨"", "", by simp [main, h1, sent]⟩
  rcases h2 : w.urlParse (listingUrl base a.serverId) with _ | x2
  · exact ⟨"", "", by simp [main, h1, h2, sent]⟩
  have hp : ∀ (x y : Request), [panelRequest (listingUrl base a.serverId) a.apiKey]
      <+: [panelRequest (listingUrl base a.serverId) a.apiKey, x, y] :=
    fun x y => ⟨[x, y], rfl⟩
  rcases h3 : w.listing (panelRequest (listingUrl base a.serverId) a.apiKey) with _ | _ | (_ | j)
  · exact ⟨"", "", by simp [main, h1, h2, h3, sent]⟩
  · exact ⟨"", "", by simp [main, h1, h2, h3, sent]⟩
  · exact ⟨"", "", by simp [main, h1, h2, h3, sent]⟩
  rcases h4 : unmarshalBackups j with _ | bs
  · exact ⟨"", "", by simp [main, h1, h2, h3, h4, sent]⟩
  have hm : main w a fs = resolveAndFetch w a fs
      [Effect.send (panelRequest (listingUrl base a.serverId) a.apiKey)] base bs := by
    simp [main, h1, h2, h3, h4]
  rw [hm]
  rcases resolveAndFetch_shape w a fs
      [Effect.send (panelRequest (listingUrl base a.serverId) a.apiKey)] base bs with
    ⟨e, _, ho⟩ | ⟨tb, _, _, ho⟩ | ⟨tb, extra, _, _, he, hs, _⟩
  · exact ⟨"", "", by simp [ho, sent]⟩
  · exact ⟨"", "", by simp [ho, sent]⟩
  · rcases hs with hs | ⟨u, hs⟩
    · exact ⟨tb.Attributes.Uuid, "", by
        simp only [he, sent_append, sent, hs, Option.getD_some]
        exact ⟨[getRequest ""], rfl⟩⟩
    · exact ⟨tb.Attributes.Uuid, u, by
        simp only [he, sent_append, sent, hs, Option.getD_some]
        exact ⟨[], rfl⟩⟩

/-- The element at index `len-1` is the last one. -/
theorem getLast_of_get {bs : backups} (hne : 1 ≤ bs.Data.length) :
    bs.Data.getLast? = some (bs.Data.get ⟨bs.Data.length - 1, by omega⟩) := by
  rw [List.getLast?_eq_getElem?]
  simp only [List.get_eq_getElem]
  exact List.getElem?_eq_getElem _

/-- An element of an initial segment is an element of the list, at the same index. -/
theorem getElem?_of_initial {α : Type} {l₁ l₂ : List α} (h : l₁ <+: l₂) {i : Nat} {x : α}
    (hx : l₁[i]? = some x) : l₂[i]? = some x := by
  obtain ⟨t, rfl⟩ := h
  have hi : i < l₁.length := by
    by_contra hlt
    rw [List.getElem?_eq_none (by omega)] at hx
    exact absurd hx (by simp)
  rw [List.getElem?_append_left hi]
  exact hx

/-- The second request of a run asks for the record at index `len-1`. -/
theorem second_request_of_listed (w : World) (a : Args) (fs : FS) (r : Steps)
    (h : Listed w a r) (hN : 1 ≤ r.bs.Data.length) (q : Request)
    (hq : (sent (main w a fs).effects)[1]? = some q) :
    q = panelRequest (downloadUrl r.base a.serverId
          (r.bs.Data.get ⟨r.bs.Data.length - 1, by omega⟩).Attributes.Uuid) a.apiKey := by
  rw [main_of_listed fs h] at hq
  rcases resolveAndFetch_shape w a fs [Effect.send (r.listingRequest a)] r.base r.bs with
    ⟨e, _, ho⟩ | ⟨tb, _, _, ho⟩ | ⟨tb, extra, ht, _, he, hs, hc⟩
  · simp [ho, sent] at hq
  · simp [ho, sent] at hq
  · obtain ⟨_, htb, _⟩ := selectTarget_ok ht
    subst htb
    simp [he, sent] at hq
    exact hq.symm

/-- Writing an entry keeps the working directory. -/
theorem set_cwd (fs : FS) (p : Loc) (n : Node) : (fs.set p n).cwd = fs.cwd := rfl

/-- Writing an entry keeps what the system refuses. -/
theorem set_refused (fs : FS) (p : Loc) (n : Node) : (fs.set p n).refused = fs.refused := rfl

/-- Writing an entry keeps where there is room. -/
theorem set_noRoom (fs : FS) (p : Loc) (n : Node) : (fs.set p n).noRoom = fs.noRoom := rfl

/-- Writing an entry does not change what is at another place. -/
theorem lookup_set_ne (fs : FS) {p q : Loc} (n : Node) (h : q ≠ p) :
    (fs.set p n).lookup q = fs.lookup q := by
  simp [FS.lookup, FS.set, h]

/-- Writing an entry at a place that is not a directory puts it there. -/
theorem lookup_set_self (fs : FS) (p : Loc) (n : Node) (h : fs.lookup p ≠ some Node.dir) :
    (fs.set p n).lookup p = some n := by
  unfold FS.lookup at h ⊢
  by_cases hc : p.isSuffixOf fs.cwd = true
  · simp [hc] at h
  · simp [FS.set, hc]

/-- What is not an ancestor of a place is not an ancestor of its parent. -/
theorem not_suffix_tail {p q : Loc} {c : String} (h : ¬ p <:+ c :: q) : ¬ p <:+ q :=
  fun hs => h (hs.trans (List.suffix_cons c q))

/-- Writing an entry at `p` changes the resolution of places below `p` only. -/
theorem statLoc_set (fs : FS) (p : Loc) (n : Node) :
    ∀ q : Loc, ¬ p <:+ q → (fs.set p n).statLoc q = fs.statLoc q
  | [], _ => rfl
  | c :: r, h => by
    have ih := statLoc_set fs p n r (not_suffix_tail h)
    have hne : c :: r ≠ p := fun he => h (he ▸ List.suffix_refl _)
    simp only [FS.statLoc, ih, lookup_set_ne fs n hne, set_refused]

/-- A place is not an ancestor of its parent. -/
theorem not_suffix_parent (c : String) (parent : Loc) : ¬ (c :: parent) <:+ parent := by
  intro h
  have := h.length_le
  simp at this

/-- A place that resolves has a parent that resolves to a directory, and the
system does not refuse it. -/
theorem statLoc_parent_of_found {fs : FS} {c : String} {parent : Loc} {n : Node}
    (h : fs.statLoc (c :: parent) = StatResult.found n) :
    fs.statLoc parent = StatResult.found Node.dir ∧ fs.lookup (c :: parent) = some n
      ∧ fs.refused (c :: parent) = false := by
  simp only [FS.statLoc] at h
  rcases hp : fs.statLoc parent with (_ | b) | _ | _ | _
  · rcases hr : fs.refused (c :: parent)
    · rcases hl : fs.lookup (c :: parent) with _ | m
      · simp [hp, hr, hl] at h
      · simp [hp, hr, hl] at h
        exact ⟨rfl, by rw [h], rfl⟩
    · simp [hp, hr] at h
  · simp [hp] at h
  · simp [hp] at h
  · simp [hp] at h
  · simp [hp] at h

/-- The ancestors of a directory are directories. -/
theorem statLoc_suffix_dir {fs : FS} :
    ∀ (p : Loc), fs.statLoc p = StatResult.found Node.dir →
      ∀ q, q <:+ p → fs.statLoc q = StatResult.found Node.dir
  | [], _, q, hq => by
    have : q = [] := List.suffix_nil.mp hq
    subst this; rfl
  | c :: parent, h, q, hq => by
    rcases List.suffix_cons_iff.mp hq with he | hs
    · subst he; exact h
    · exact statLoc_suffix_dir parent (statLoc_parent_of_found h).1 q hs

/-- The working directory and its ancestors are directories. -/
theorem lookup_suffix_cwd {fs : FS} {p : Loc} (h : p.isSuffixOf fs.cwd = true) :
    fs.lookup p = some Node.dir := by
  simp [FS.lookup, h]

/-- In a tree an entry resolves, unless the system refuses a place on the
way. -/
theorem statLoc_of_lookup {fs : FS} (hwf : fs.WellFormed) :
    ∀ (p : Loc) (n : Node), fs.lookup p = some n → p ≠ [] →
      fs.statLoc p = StatResult.found n ∨ fs.statLoc p = StatResult.failed
  | [], _, _, hne => absurd rfl hne
  | c :: parent, n, h, _ => by
    have hpar : fs.lookup parent = some Node.dir := by
      by_cases hc : (c :: parent).isSuffixOf fs.cwd = true
      · apply lookup_suffix_cwd
        rw [List.isSuffixOf_iff_suffix] at hc ⊢
        exact (List.suffix_cons c parent).trans hc
      · apply hwf c parent
        unfold FS.lookup at h
        rw [if_neg hc] at h
        simp [h]
    have hp : fs.statLoc parent = StatResult.found Node.dir
        ∨ fs.statLoc parent = StatResult.failed := by
      rcases parent with _ | ⟨c', gp⟩
      · exact Or.inl rfl
      · exact statLoc_of_lookup hwf _ _ hpar (by simp)
    rcases hp with hp | hp
    · rcases hr : fs.refused (c :: parent)
      · exact Or.inl (by simp [FS.statLoc, hp, hr, h])
      · exact Or.inr (by simp [FS.statLoc, hp, hr])
    · exact Or.inr (by simp [FS.statLoc, hp])

/-- `MkdirAll` on a directory does nothing. -/
theorem mkdirAllRun_of_dir {fs : FS} :
    ∀ p : Loc, fs.statLoc p = StatResult.found Node.dir → fs.mkdirAllRun p = (fs, true)
  | [], _ => rfl
  | c :: parent, h => by simp [FS.mkdirAllRun, h]

/-- `mkdir` below a directory, at a free place the system lets be made. -/
theorem mkdir_step {fs : FS} {c : String} {parent : Loc}
    (hp : fs.statLoc parent = StatResult.found Node.dir)
    (hl : fs.lookup (c :: parent) = none) (hm : fs.canMake (c :: parent) = true) :
    fs.mkdir (c :: parent) = some (fs.set (c :: parent) Node.dir)
      ∧ ∀ q, q <:+ c :: parent →
          (fs.set (c :: parent) Node.dir).statLoc q = StatResult.found Node.dir := by
  refine ⟨by simp [FS.mkdir, hp, hl, hm], ?_⟩
  have hr : fs.refused (c :: parent) = false := by
    simp [FS.canMake] at hm
    exact hm.1
  intro q hq
  rcases List.suffix_cons_iff.mp hq with he | hs
  · subst he
    have h1 := statLoc_set fs (c :: parent) Node.dir parent (not_suffix_parent c parent)
    have h2 := lookup_set_self fs (c :: parent) Node.dir (by simp [hl])
    simp [FS.statLoc, h1, hp, h2, set_refused, hr]
  · have hns : ¬ (c :: parent) <:+ q := by
      intro h
      exact not_suffix_parent c parent (h.trans hs)
    rw [statLoc_set fs _ _ q hns]
    exact statLoc_suffix_dir parent hp q hs

/-- A successful `mkdir` is a write of a directory at a free place below a
directory. -/
theorem mkdir_some {fs fs2 : FS} {c : String} {parent : Loc}
    (h : fs.mkdir (c :: parent) = some fs2) :
    fs.statLoc parent = StatResult.found Node.dir ∧ fs.lookup (c :: parent) = none
      ∧ fs.canMake (c :: parent) = true ∧ fs2 = fs.set (c :: parent) Node.dir := by
  unfold FS.mkdir at h
  rcases hp : fs.statLoc parent with (_ | b) | _ | _ | _
  · rcases hl : fs.lookup (c :: parent) with _ | m
    · rcases hm : fs.canMake (c :: parent)
      · simp [hp, hl, hm] at h
      · simp [hp, hl, hm] at h
        exact ⟨rfl, rfl, rfl, h.symm⟩
    · simp [hp, hl] at h
  · simp [hp] at h
  · simp [hp] at h
  · simp [hp] at h
  · simp [hp] at h

/-- The state after the directory at `p` has been made below a parent that
`MkdirAll` has made. -/
theorem made_step {fs fs' : FS} {c : String} {parent : Loc}
    (hm : Made fs fs' parent) (hp : fs'.statLoc parent = StatResult.found Node.dir)
    (hl : fs'.lookup (c :: parent) = none) (hc : fs'.canMake (c :: parent) = true) :
    Made fs (fs'.set (c :: parent) Node.dir) (c :: parent) := by
  obtain ⟨_, hd⟩ := mkdir_step hp hl hc
  refine ⟨hm.cwd, hm.refused, hm.noRoom, hd, ?_⟩
  intro q hq
  have hne : q ≠ c :: parent := fun he => hq (he ▸ List.suffix_refl _)
  have hq' : ¬ q <:+ parent := fun hs => hq (hs.trans (List.suffix_cons c parent))
  simp [FS.set, hne, hm.frame q hq']

/-- Nothing made. -/
theorem made_refl {fs : FS} {p : Loc} (h : fs.statLoc p = StatResult.found Node.dir) :
    Made fs fs p :=
  ⟨rfl, rfl, rfl, statLoc_suffix_dir p h, fun _ _ => rfl⟩

/-- The directory is there although `mkdir` failed. -/
theorem made_weaken {fs fs' : FS} {c : String} {parent : Loc}
    (hm : Made fs fs' parent) (hs : fs'.statLoc (c :: parent) = StatResult.found Node.dir) :
    Made fs fs' (c :: parent) :=
  ⟨hm.cwd, hm.refused, hm.noRoom, statLoc_suffix_dir _ hs,
    fun q hq => hm.frame q (fun h => hq (h.trans (List.suffix_cons c parent)))⟩

/-- What is common to the three cases of `MkdirAll` in which `Stat` fails. -/
theorem mkdirAllRun_slow {fs fs1 : FS} {c : String} {parent : Loc}
    (ih : ∀ fs', fs.mkdirAllRun parent = (fs', true) → Made fs fs' parent)
    (h : (match fs.mkdirAllRun parent with
      | (fs1, false) => (fs1, false)
      | (fs1, true) =>
        match fs1.mkdir (c :: parent) with
        | some fs2 => (fs2, true)
        | none =>
          match fs1.statLoc (c :: parent) with
          | StatResult.found Node.dir => (fs1, true)
          | _ => (fs1, false)) = (fs1, true)) :
    Made fs fs1 (c :: parent) := by
  rcases hr : fs.mkdirAllRun parent with ⟨fs', b⟩
  rw [hr] at h
  cases b
  · simp at h
  · have hm := ih fs' hr
    simp only at h
    rcases hk : fs'.mkdir (c :: parent) with _ | fs2
    · rw [hk] at h
      simp only at h
      rcases hs : fs'.statLoc (c :: parent) with (_ | b) | _ | _ | _
      · rw [hs] at h
        simp only [Prod.mk.injEq, and_true] at h
        subst h
        exact made_weaken hm hs
      all_goals (rw [hs] at h; simp at h)
    · rw [hk] at h
      simp only [Prod.mk.injEq, and_true] at h
      subst h
      obtain ⟨hp, hl, hc, he⟩ := mkdir_some hk
      subst he
      exact made_step hm hp hl hc

/-- A successful `MkdirAll` leaves the directory and all its ancestors there
and changes nothing else, whatever the system refuses elsewhere. -/
theorem made_of_mkdirAllRun :
    ∀ (p : Loc) (fs fs1 : FS), fs.mkdirAllRun p = (fs1, true) → Made fs fs1 p
  | [], fs, fs1, h => by
    simp only [FS.mkdirAllRun, Prod.mk.injEq, and_true] at h
    subst h
    exact made_refl rfl
  | c :: parent, fs, fs1, h => by
    unfold FS.mkdirAllRun at h
    rcases hs : fs.statLoc (c :: parent) with (_ | b) | _ | _ | _
    · rw [hs] at h
      simp only [Prod.mk.injEq, and_true] at h
      subst h
      exact made_refl hs
    · rw [hs] at h
      simp at h
    · rw [hs] at h
      exact mkdirAllRun_slow (fun fs' => made_of_mkdirAllRun parent fs fs') h
    · rw [hs] at h
      exact mkdirAllRun_slow (fun fs' => made_of_mkdirAllRun parent fs fs') h
    · rw [hs] at h
      exact mkdirAllRun_slow (fun fs' => made_of_mkdirAllRun parent fs fs') h

/-- `MkdirAll` on a missing place of a tree succeeds when the system lets
every missing directory on the way be made. -/
theorem mkdirAllRun_spec {fs : FS} (hwf : fs.WellFormed) :
    ∀ p : Loc, fs.statLoc p = StatResult.notExist →
      (∀ q, q <:+ p → fs.statLoc q = StatResult.notExist → fs.canMake q = true) →
      (fs.mkdirAllRun p).2 = true
  | [], h, _ => by simp [FS.statLoc] at h
  | c :: parent, h, hcan => by
    have hl : fs.lookup (c :: parent) = none := by
      rcases hl : fs.lookup (c :: parent) with _ | n
      · rfl
      · rcases statLoc_of_lookup hwf _ _ hl (by simp) with hh | hh
        · rw [hh] at h; exact absurd h (by simp)
        · rw [hh] at h; exact absurd h (by simp)
    have hcp : fs.canMake (c :: parent) = true := hcan _ (List.suffix_refl _) h
    rcases hp : fs.statLoc parent with (_ | b) | _ | _ | _
    · obtain ⟨hm, _⟩ := mkdir_step hp hl hcp
      simp [FS.mkdirAllRun, h, mkdirAllRun_of_dir parent hp, hm]
    · simp [FS.statLoc, hp] at h
    · have ih := mkdirAllRun_spec hwf parent hp
        (fun q hq hs => hcan q (hq.trans (List.suffix_cons c parent)) hs)
      rcases hr : fs.mkdirAllRun parent with ⟨fs', b⟩
      rw [hr] at ih
      simp only at ih
      subst ih
      have hmade := made_of_mkdirAllRun parent fs fs' hr
      have hp' : fs'.statLoc parent = StatResult.found Node.dir :=
        hmade.dirs parent (List.suffix_refl _)
      have hl' : fs'.lookup (c :: parent) = none := by
        have hn := hmade.frame (c :: parent) (not_suffix_parent c parent)
        simpa [FS.lookup, hmade.cwd, hn] using hl
      have hc' : fs'.canMake (c :: parent) = true := by
        simpa [FS.canMake, hmade.refused, hmade.noRoom] using hcp
      obtain ⟨hm, _⟩ := mkdir_step hp' hl' hc'
      simp [FS.mkdirAllRun, h, hr, hm]
    · simp [FS.statLoc, hp] at h
    · simp [FS.statLoc, hp] at h

/-- After `os.Create` and the copy, the file holds the bytes copied. -/
theorem readFile_after_create {fs1 fs2 : FS} {name : String} {out : Loc} {data : Bytes}
    (h : fs1.create name = some (fs2, out)) :
    (fs2.append out data).readFile name = some data := by
  unfold FS.create at h
  rcases ha : absolute fs1.cwd name with _ | p
  · simp [ha] at h
  rcases p with _ | ⟨c, parent⟩
  · simp [ha] at h
  simp only [ha] at h
  rcases hr : fs1.refused (c :: parent)
  swap
  · simp [hr] at h
  rcases hp : fs1.statLoc parent with (_ | b) | _ | _ | _
  · have hnd : fs1.lookup (c :: parent) ≠ some Node.dir := by
      intro hd
      simp [hr, hp, hd] at h
    have hres : fs2 = fs1.set (c :: parent) (Node.file []) ∧ out = c :: parent := by
      rcases hl : fs1.lookup (c :: parent) with _ | (_ | b)
      · rcases hn : fs1.noRoom (c :: parent)
        · simp [hr, hp, hl, hn] at h; exact ⟨h.1.symm, h.2.symm⟩
        · simp [hr, hp, hl, hn] at h
      · exact absurd hl hnd
      · simp [hr, hp, hl] at h; exact ⟨h.1.symm, h.2.symm⟩
    obtain ⟨h2, ho⟩ := hres
    subst h2 ho
    have happ : (fs1.set (c :: parent) (Node.file [])).append (c :: parent) data
        = (fs1.set (c :: parent) (Node.file [])).set (c :: parent) (Node.file data) := by
      simp [FS.append, FS.set]
    rw [happ]
    have hnd2 : (fs1.set (c :: parent) (Node.file [])).lookup (c :: parent) ≠ some Node.dir := by
      rw [lookup_set_self fs1 _ _ hnd]
      simp
    have hlk := lookup_set_self (fs1.set (c :: parent) (Node.file [])) (c :: parent)
      (Node.file data) hnd2
    have hst : ((fs1.set (c :: parent) (Node.file [])).set (c :: parent)
        (Node.file data)).statLoc parent = StatResult.found Node.dir := by
      rw [statLoc_set _ _ _ parent (not_suffix_parent c parent),
        statLoc_set _ _ _ parent (not_suffix_parent c parent)]
      exact hp
    simp [FS.readFile, FS.stat, set_cwd, ha, FS.statLoc, hst, hlk, set_refused, hr]
  · simp [hr, hp] at h
  · simp [hr, hp] at h
  · simp [hr, hp] at h
  · simp [hr, hp] at h

/-- Two digits are read alike by `getnum(s, true)` and `getnum(s, false)`. -/
theorem getnum_of_fixed {v rest : List Char} {n : Nat} (h : getnumFixed v = some (n, rest)) :
    getnum v = some (n, rest) := by
  rcases v with _ | ⟨a, _ | ⟨b, r⟩⟩
  · simp [getnumFixed] at h
  · simp [getnumFixed] at h
  · simp only [getnumFixed] at h
    rcases ha : digitVal a with _ | x
    · simp [ha] at h
    · rcases hb : digitVal b with _ | y
      · simp [ha, hb] at h
      · simp [ha, hb] at h
        simp [getnum, ha, hb, h]

/-- An upper-case `T` is the literal of the layout. -/
theorem readT_upper {v rest : List Char} (h : readT v = some (rest, true)) :
    skipChar 'T' v = some rest := by
  unfold readT at h
  split at h
  · simp at h; simp [skipChar, h]
  · simp at h
  · simp at h

/-- An offset starts with neither a period nor a comma. -/
theorem readOffset_head {v rest : List Char} {up : Bool} (h : readOffset v = some (rest, up)) :
    ∃ c tl, v = c :: tl ∧ c ≠ '.' ∧ c ≠ ',' := by
  unfold readOffset at h
  split at h
  · exact ⟨_, _, rfl, by decide, by decide⟩
  · exact ⟨_, _, rfl, by decide, by decide⟩
  next sign h1 h2 c m1 m2 r _ _ =>
    split at h
    next hc =>
      refine ⟨_, _, rfl, ?_, ?_⟩
      · rcases hc.2 with hs | hs <;> (rw [hs]; decide)
      · rcases hc.2 with hs | hs <;> (rw [hs]; decide)
    · simp at h
  · simp at h

/-- No fraction is skipped where the value starts with neither a period nor a comma. -/
theorem skipFraction_of_head {c : Char} {tl : List Char} (h1 : c ≠ '.') (h2 : c ≠ ',') :
    skipFraction (c :: tl) = c :: tl := by
  rcases tl with _ | ⟨d, r⟩
  · rfl
  · simp [skipFraction, h1, h2]

/-- An offset of RFC 3339 with an upper-case letter is accepted by the layout element `Z07:00`. -/
theorem getZone_of_readOffset {v rest : List Char} (h : readOffset v = some (rest, true)) :
    getZone v = some rest := by
  unfold readOffset at h
  split at h
  · simp at h; simp [getZone, h]
  · simp at h
  next sign h1 h2 c m1 m2 r hZ hz =>
    split at h
    next hc =>
      rcases hh : getnumFixed [h1, h2] with _ | ⟨hr, x⟩
      · simp [hh] at h
      rcases hm : getnumFixed [m1, m2] with _ | ⟨mm, y⟩
      · simp [hh, hm] at h
      simp only [hh, hm] at h
      split at h
      next hb =>
        simp at h
        have hsZ : sign ≠ 'Z' := by
          rcases hc.2 with hs | hs <;> (rw [hs]; decide)
        unfold getZone
        split
        next heq => simp at heq; exact absurd heq.1 hsZ
        next heq =>
          simp at heq
          obtain ⟨e1, e2, e3, e4, e5, e6, e7⟩ := heq
          subst e1 e2 e3 e4 e5 e6 e7
          have : hr ≤ 24 ∧ mm ≤ 60 := ⟨by omega, by omega⟩
          simp [hc.1, hh, hm, this, hc.2, h]
        next hno => exact absurd rfl (hno _ _ _ _ _ _ _)
      · simp at h
    · simp at h
  · simp at h

/-- On a fraction of RFC 3339 followed by an offset the library skips the same characters. -/
theorem skipFraction_of_read {v v12 rest : List Char} {up : Bool}
    (h : readFraction v = some v12) (ho : readOffset v12 = some (rest, up)) :
    skipFraction v = v12 := by
  unfold readFraction at h
  split at h
  next d r =>
    split at h
    next hd => simp at h; simp [skipFraction, hd, h]
    · simp at h
  · simp at h
  · simp at h
    subst h
    obtain ⟨c, tl, rfl, h1, h2⟩ := readOffset_head ho
    exact skipFraction_of_head h1 h2

/-- A digit is at most 9. -/
theorem digitVal_le {c : Char} {d : Nat} (h : digitVal c = some d) : d ≤ 9 := by
  unfold digitVal at h
  split at h
  · simp at h; omega
  · simp at h

/-- A year of four digits is at most 9999. -/
theorem getYear_le {v rest : List Char} {y : Nat} (h : getYear v = some (y, rest)) :
    y ≤ 9999 := by
  unfold getYear at h
  split at h
  next a b c d r =>
    simp only [digitsVal] at h
    rcases ha : digitVal a with _ | x1
    · simp [ha] at h
    rcases hb : digitVal b with _ | x2
    · simp [ha, hb] at h
    rcases hc : digitVal c with _ | x3
    · simp [ha, hb, hc] at h
    rcases hd : digitVal d with _ | x4
    · simp [ha, hb, hc, hd] at h
    simp [ha, hb, hc, hd] at h
    have := digitVal_le ha
    have := digitVal_le hb
    have := digitVal_le hc
    have := digitVal_le hd
    omega
  · simp at h

/-- The fields of a timestamp of RFC 3339 are in range, and `time.Parse` returns them when the letters are upper case and the second is at most 59. -/
theorem timeParse_of_read {v : List Char} {t : Time} {up : Bool}
    (h : readRFC3339 v = some (t, up)) :
    t.year ≤ 9999 ∧ 1 ≤ t.month ∧ t.month ≤ 12 ∧ 1 ≤ t.day ∧ t.day ≤ daysIn t.month t.year
      ∧ t.hour ≤ 23 ∧ t.minute ≤ 59 ∧ t.second ≤ 60
      ∧ (up = true → t.second ≤ 59 → parseRFC3339Chars v = some t) := by
  unfold readRFC3339 at h
  rcases h1 : getYear v with _ | ⟨year, v1⟩
  · simp [h1] at h
  rcases h2 : skipChar '-' v1 with _ | v2
  · simp [h1, h2] at h
  rcases h3 : getnumFixed v2 with _ | ⟨month, v3⟩
  · simp [h1, h2, h3] at h
  rcases h4 : skipChar '-' v3 with _ | v4
  · simp [h1, h2, h3, h4] at h
  rcases h5 : getnumFixed v4 with _ | ⟨day, v5⟩
  · simp [h1, h2, h3, h4, h5] at h
  rcases h6 : readT v5 with _ | ⟨v6, upperT⟩
  · simp [h1, h2, h3, h4, h5, h6] at h
  rcases h7 : getnumFixed v6 with _ | ⟨hour, v7⟩
  · simp [h1, h2, h3, h4, h5, h6, h7] at h
  rcases h8 : skipChar ':' v7 with _ | v8
  · simp [h1, h2, h3, h4, h5, h6, h7, h8] at h
  rcases h9 : getnumFixed v8 with _ | ⟨minute, v9⟩
  · simp [h1, h2, h3, h4, h5, h6, h7, h8, h9] at h
  rcases h10 : skipChar ':' v9 with _ | v10
  · simp [h1, h2, h3, h4, h5, h6, h7, h8, h9, h10] at h
  rcases h11 : getnumFixed v10 with _ | ⟨second, v11⟩
  · simp [h1, h2, h3, h4, h5, h6, h7, h8, h9, h10, h11] at h
  rcases h12 : readFraction v11 with _ | v12
  · simp [h1, h2, h3, h4, h5, h6, h7, h8, h9, h10, h11, h12] at h
  rcases h13 : readOffset v12 with _ | ⟨rest, upperZ⟩
  · simp [h1, h2, h3, h4, h5, h6, h7, h8, h9, h10, h11, h12, h13] at h
  simp only [h1, h2, h3, h4, h5, h6, h7, h8, h9, h10, h11, h12, h13] at h
  split at h
  next hc =>
    obtain ⟨hrest, hm1, hm2, hd1, hd2, hh, hmi, hs⟩ := hc
    simp only [Option.some.injEq, Prod.mk.injEq] at h
    obtain ⟨ht, hup⟩ := h
    subst ht
    refine ⟨getYear_le h1, hm1, hm2, hd1, hd2, hh, hmi, hs, ?_⟩
    intro hu hs59
    subst hu
    simp only [Bool.and_eq_true] at hup
    obtain ⟨huT, huZ⟩ := hup
    subst huT huZ hrest
    have e6 := readT_upper h6
    have e7 := getnum_of_fixed h7
    have e12 := skipFraction_of_read h12 h13
    have e13 := getZone_of_readOffset h13
    have hh' : hour < 24 := by omega
    have hmi' : minute < 60 := by omega
    have hs' : second < 60 := by simp only at hs59; omega
    simp [parseRFC3339Chars, h1, h2, h3, h4, h5, e6, e7, h8, h9, h10, h11, e12, e13, hm1, hm2,
      hd1, hd2, hh', hmi', hs']
  · simp at h

/-- `appendInt` pads a number that fits the width. -/
theorem appendInt_eq_zeroPad {n w : Nat} (h : n < 10 ^ w) : appendInt n w = zeroPad w n := by
  simp [appendInt, h]

/-- The formatted fields of a timestamp of RFC 3339. -/
theorem format_of_read {v : List Char} {t : Time} {up : Bool}
    (h : readRFC3339 v = some (t, up)) :
    t.Format = String.mk (zeroPad 4 t.year ++ ['-'] ++ zeroPad 2 t.month ++ ['-']
      ++ zeroPad 2 t.day ++ ['_'] ++ zeroPad 2 t.hour ++ ['.'] ++ zeroPad 2 t.minute ++ ['.']
      ++ zeroPad 2 t.second) := by
  obtain ⟨hy, _, hm, _, hd, hh, hmi, hs, _⟩ := timeParse_of_read h
  have hd31 : daysIn t.month t.year ≤ 31 := by
    unfold daysIn
    split
    · split <;> omega
    · split <;> omega
  rw [Time.Format, appendInt_eq_zeroPad (show t.year < 10 ^ 4 by omega),
    appendInt_eq_zeroPad (show t.month < 10 ^ 2 by omega),
    appendInt_eq_zeroPad (show t.day < 10 ^ 2 by omega),
    appendInt_eq_zeroPad (show t.hour < 10 ^ 2 by omega),
    appendInt_eq_zeroPad (show t.minute < 10 ^ 2 by omega),
    appendInt_eq_zeroPad (show t.second < 10 ^ 2 by omega)]

/-- Members whose keys select no field leave the struct as it is. -/
theorem decodeMembers_skip {α : Type} (step : α → String → Json → Option α) (field : String)
    (hskip : ∀ a k v, keyMatches field k = false → step a k v = some a) :
    ∀ (ms : List (String × Json)) (a : α),
      ms.filter (fun kv => keyMatches field kv.1) = [] → decodeMembers step a ms = some a
  | [], a, _ => rfl
  | (k, v) :: rest, a, h => by
    by_cases hk : keyMatches field k = true
    · simp [List.filter, hk] at h
    · have hk' : keyMatches field k = false := by simpa using hk
      have hr : rest.filter (fun kv => keyMatches field kv.1) = [] := by
        simpa [List.filter, hk'] using h
      simp [decodeMembers, hskip a k v hk', decodeMembers_skip step field hskip rest a hr]

/-- When one member selects the field, decoding the object is decoding that member. -/
theorem decodeMembers_only {α : Type} (step : α → String → Json → Option α) (field : String)
    (hskip : ∀ a k v, keyMatches field k = false → step a k v = some a) :
    ∀ (ms : List (String × Json)) (a : α) (kv : String × Json),
      ms.filter (fun kv => keyMatches field kv.1) = [kv] →
      decodeMembers step a ms = step a kv.1 kv.2
  | [], a, kv, h => by simp at h
  | (k, v) :: rest, a, kv, h => by
    by_cases hk : keyMatches field k = true
    · simp [List.filter, hk] at h
      obtain ⟨he, hr⟩ := h
      subst he
      simp only [decodeMembers]
      rcases hs : step a k v with _ | b
      · rfl
      · have hr' : rest.filter (fun kv => keyMatches field kv.1) = [] := by
          simpa [List.filter_eq_nil_iff] using hr
        simp [decodeMembers_skip step field hskip rest b hr']
    · have hk' : keyMatches field k = false := by simpa using hk
      have hr : rest.filter (fun kv => keyMatches field kv.1) = [kv] := by
        simpa [List.filter, hk'] using h
      simp [decodeMembers, hskip a k v hk', decodeMembers_only step field hskip rest a kv hr]

/-- A download response with a string at `attributes.url` decodes to that string. -/
theorem unmarshal_of_stringAt {j : Json} {u : String}
    (h : stringAt ["attributes", "url"] j = some u) :
    unmarshalBackupDownload j = some { Attributes := { Url := u } } := by
  rcases j with _ | _ | _ | _ | _ | ms
  all_goals try (simp [stringAt] at h; done)
  simp only [stringAt] at h
  rcases h1 : onlyMember "attributes" ms with _ | v
  · simp [h1] at h
  simp only [h1] at h
  rcases v with _ | _ | _ | _ | _ | as
  all_goals try (simp [stringAt] at h; done)
  simp only [stringAt] at h
  rcases h2 : onlyMember "url" as with _ | v2
  · simp [h2] at h
  simp only [h2] at h
  rcases v2 with _ | _ | _ | s | _ | _
  all_goals try (simp [stringAt] at h; done)
  simp only [stringAt, Option.some.injEq] at h
  subst h
  -- the two members found
  unfold onlyMember at h1 h2
  split at h1
  next kv1 hf1 =>
    split at h2
    next kv2 hf2 =>
      simp only [Option.some.injEq] at h1 h2
      have e2 := decodeMembers_only decodeDownloadAttributeMember "url"
        (fun a k v hk => by simp [decodeDownloadAttributeMember, hk]) as
        (backupDownload.zero).Attributes kv2 hf2
      have hk2 : keyMatches "url" kv2.1 = true := by
        have : kv2 ∈ as.filter (fun kv => keyMatches "url" kv.1) := by simp [hf2]
        exact (List.mem_filter.mp this).2
      have e1 := decodeMembers_only decodeDownloadMember "attributes"
        (fun a k v hk => by simp [decodeDownloadMember, hk]) ms backupDownload.zero kv1 hf1
      have hk1 : keyMatches "attributes" kv1.1 = true := by
        have : kv1 ∈ ms.filter (fun kv => keyMatches "attributes" kv.1) := by simp [hf1]
        exact (List.mem_filter.mp this).2
      simp only [unmarshalBackupDownload, e1, decodeDownloadMember, hk1, if_true, h1,
        decodeDownloadAttributes, e2, decodeDownloadAttributeMember, hk2, h2, decodeString]
      rfl
    · simp at h2
  · simp at h1

/-- The requests of a run that has decoded the download response. -/
theorem third_request_of_resolved (w : World) (a : Args) (fs : FS) (r : Steps)
    (h : Resolved w a r) :
    sent (main w a fs).effects = [r.listingRequest a, r.downloadRequest a]
    ∨ sent (main w a fs).effects = [r.listingRequest a, r.downloadRequest a, r.archiveRequest] := by
  rw [main_of_resolved fs h]
  obtain ⟨extra, he, hs, _⟩ := fetchAndStore_shape w a fs
    [Effect.send (r.listingRequest a), Effect.send (r.downloadRequest a)]
    r.targetBackup r.backupDownload
  rcases hs with hs | hs
  · exact Or.inl (by simp [he, sent_append, sent, hs])
  · exact Or.inr (by simp [he, sent_append, sent, hs, Steps.archiveRequest])

/-- The GET of the signed URL is sent when `http.Get` accepts the target. -/
theorem archive_sent_of_url (w : World) (a : Args) (fs : FS) (r : Steps)
    (h : Resolved w a r) (hu : (w.urlParse r.backupDownload.Attributes.Url).isSome = true) :
    sent (main w a fs).effects = [r.listingRequest a, r.downloadRequest a, r.archiveRequest] := by
  rw [main_of_resolved fs h]
  obtain ⟨x9, h9⟩ := Option.isSome_iff_exists.mp hu
  rcases h10 : w.archive (getRequest r.backupDownload.Attributes.Url) with _ | ⟨data, rf⟩
  · simp [fetchAndStore, h9, h10, sent, Steps.archiveRequest]
  rcases h11 : ensureDir fs (Join a.backupDir a.serverId) with _ | ⟨fs1, made⟩
  · simp [fetchAndStore, h9, h10, h11, sent, Steps.archiveRequest]
  have hm := sent_made h11
  rcases h12 : timeParse r.targetBackup.Attributes.CreatedAt with _ | t
  · simp [fetchAndStore, h9, h10, h11, h12, sent, sent_append, hm, Steps.archiveRequest]
  rcases h13 : fs1.create (outputName (Join a.backupDir a.serverId) t) with _ | ⟨fs2, out⟩
  · simp [fetchAndStore, h9, h10, h11, h12, h13, sent, sent_append, hm, Steps.archiveRequest]
  · simp [fetchAndStore, h9, h10, h11, h12, h13, sent, sent_append, hm, Steps.archiveRequest]

/-- A non-empty path names a place. -/
theorem absolute_of_ne_empty (cwd : Loc) {s : String} (h : s ≠ "") :
    ∃ p, absolute cwd s = some p := by
  unfold absolute
  rcases hd : s.data with _ | ⟨c, cs⟩
  · exact absurd (String.ext hd) h
  · by_cases hc : c = '/'
    · subst hc; exact ⟨_, rfl⟩
    · refine ⟨(splitSlash (c :: cs)).foldl pushComp cwd, ?_⟩
      split
      · next heq => simp at heq
      · next heq => simp at heq; exact absurd heq.1 hc
      · rfl

/-- A successful `os.MkdirAll` leaves the directory and its ancestors there
and changes nothing else. -/
theorem mkdirAll_made {fs fs1 : FS} {path : String} {p : Loc}
    (ha : absolute fs.cwd path = some p) (hm : fs.mkdirAll path = some fs1) :
    Made fs fs1 p ∧ fs1.stat path = StatResult.found Node.dir := by
  simp only [FS.mkdirAll, ha, FS.mkdirAllLoc] at hm
  split at hm
  next hb =>
    simp only [Option.some.injEq] at hm
    have hr : fs.mkdirAllRun p = (fs1, true) := by
      rw [← hm, ← hb]
    have hmade := made_of_mkdirAllRun p fs fs1 hr
    exact ⟨hmade, by simp [FS.stat, hmade.cwd, ha, hmade.dirs p (List.suffix_refl _)]⟩
  · simp at hm

/-- `os.MkdirAll` on a missing path of a tree succeeds when the system lets
every missing directory on the way be made. -/
theorem mkdirAll_spec {fs : FS} (hwf : fs.WellFormed) {path : String} {p : Loc}
    (ha : absolute fs.cwd path = some p) (hs : fs.stat path = StatResult.notExist)
    (hcan : ∀ q, q <:+ p → fs.statLoc q = StatResult.notExist → fs.canMake q = true) :
    (fs.mkdirAll path).isSome = true := by
  have hs' : fs.statLoc p = StatResult.notExist := by simpa [FS.stat, ha] using hs
  have := mkdirAllRun_spec hwf p hs' hcan
  simp [FS.mkdirAll, ha, FS.mkdirAllLoc, this]

/-- A run that ends without a fatal error has gone through every stage, and the body was read to its end. -/
theorem stores_of_completed {w : World} {a : Args} {fs : FS}
    (h : (main w a fs).fatal = none) : ∃ r, Stores w a fs r ∧ r.readFails = false := by
  rcases h1 : w.urlParse a.url with _ | base
  · simp [main, h1] at h
  rcases h2 : w.urlParse (listingUrl base a.serverId) with _ | x2
  · simp [main, h1, h2] at h
  rcases h3 : w.listing (panelRequest (listingUrl base a.serverId) a.apiKey) with _ | _ | (_ | j)
  · simp [main, h1, h2, h3] at h
  · simp [main, h1, h2, h3] at h
  · simp [main, h1, h2, h3] at h
  rcases h4 : unmarshalBackups j with _ | bs
  · simp [main, h1, h2, h3, h4] at h
  rcases h5 : selectTarget bs with e | tb
  · simp [main, h1, h2, h3, h4, resolveAndFetch, h5] at h
  rcases h6 : w.urlParse (downloadUrl base a.serverId tb.Attributes.Uuid) with _ | x6
  · simp [main, h1, h2, h3, h4, resolveAndFetch, h5, h6] at h
  rcases h7 : w.download (panelRequest (downloadUrl base a.serverId tb.Attributes.Uuid) a.apiKey)
    with _ | _ | (_ | jd)
  · simp [main, h1, h2, h3, h4, resolveAndFetch, h5, h6, h7] at h
  · simp [main, h1, h2, h3, h4, resolveAndFetch, h5, h6, h7] at h
  · simp [main, h1, h2, h3, h4, resolveAndFetch, h5, h6, h7] at h
  rcases h8 : unmarshalBackupDownload jd with _ | bd
  · simp [main, h1, h2, h3, h4, resolveAndFetch, h5, h6, h7, h8] at h
  rcases h9 : w.urlParse bd.Attributes.Url with _ | x9
  · simp [main, h1, h2, h3, h4, resolveAndFetch, h5, h6, h7, h8, fetchAndStore, h9] at h
  rcases h10 : w.archive (getRequest bd.Attributes.Url) with _ | ⟨wire, gz, rf⟩
  · simp [main, h1, h2, h3, h4, resolveAndFetch, h5, h6, h7, h8, fetchAndStore, h9, h10] at h
  rcases h11 : ensureDir fs (Join a.backupDir a.serverId) with _ | ⟨fs1, made⟩
  · simp [main, h1, h2, h3, h4, resolveAndFetch, h5, h6, h7, h8, fetchAndStore, h9, h10, h11] at h
  rcases h12 : timeParse tb.Attributes.CreatedAt with _ | t
  · simp [main, h1, h2, h3, h4, resolveAndFetch, h5, h6, h7, h8, fetchAndStore, h9, h10, h11,
      h12] at h
  rcases h13 : fs1.create (outputName (Join a.backupDir a.serverId) t) with _ | ⟨fs2, out⟩
  · simp [main, h1, h2, h3, h4, resolveAndFetch, h5, h6, h7, h8, fetchAndStore, h9, h10, h11,
      h12, h13] at h
  simp [main, h1, h2, h3, h4, resolveAndFetch, h5, h6, h7, h8, fetchAndStore, h9, h10, h11,
      h12, h13] at h
  exact ⟨⟨base, j, bs, tb, jd, bd, wire, gz, rf, fs1, made, t, fs2, out⟩,
    ⟨⟨⟨⟨h1, by simp [h2], h3, h4⟩, h5, by simp [h6], h7, h8⟩, by simp [h9], h10, h11⟩, h12, h13⟩,
    h⟩

/-- The files created by two effect lists in a row. -/
theorem created_append (xs ys : List Effect) : created (xs ++ ys) = created xs ++ created ys := by
  induction xs with
  | nil => rfl
  | cons e es ih => cases e <;> simp [created, ih]

/-- The directory step creates no file (as a list). -/
theorem created_made {fs fs1 : FS} {path : String} {made : List Effect}
    (h : ensureDir fs path = some (fs1, made)) : created made = [] := by
  rcases ensureDir_cases h with ⟨_, _, hm⟩ | ⟨_, _, hm⟩ <;> simp [hm, created]

/-- The names in `created` are those of the `create` effects. -/
theorem mem_created {name : String} :
    ∀ {es : List Effect}, name ∈ created es ↔ Effect.create name ∈ es
  | [] => by simp [created]
  | e :: es => by
    cases e <;> simp [created, @mem_created name es]

/-- Selection when the last record is successful. -/
theorem selectTarget_of_successful (bs : backups) (hne : 1 ≤ bs.Data.length)
    (h : (bs.Data.get ⟨bs.Data.length - 1, by omega⟩).Attributes.IsSuccessful = true) :
    selectTarget bs = Except.ok (bs.Data.get ⟨bs.Data.length - 1, by omega⟩) := by
  have : bs.Data.length ≠ 0 := by omega
  simp only [List.get_eq_getElem] at h
  simp [selectTarget, this, h]

/-- The requests on the wire are the requests handed to the client and the
requests the client sends after their redirects. -/
theorem mem_wireRequests {w : World} {q : Request} : ∀ es : List Effect,
    q ∈ wireRequests w es ↔
      ∃ i, i ∈ sent es ∧ (q = i ∨ ∃ h, h ∈ w.redirects i ∧ q = hopRequest i h)
  | [] => by simp [wireRequests, sent]
  | e :: es => by
    have ih := @mem_wireRequests w q es
    cases e with
    | send r =>
      simp only [wireRequests, sent, List.mem_cons, List.mem_append, List.mem_map, ih]
      constructor
      · rintro ((h | ⟨h, hh, rfl⟩) | ⟨i, hi, hq⟩)
        · exact ⟨r, Or.inl rfl, Or.inl h⟩
        · exact ⟨r, Or.inl rfl, Or.inr ⟨h, hh, rfl⟩⟩
        · exact ⟨i, Or.inr hi, hq⟩
      · rintro ⟨i, hi | hi, hq⟩
        · subst hi
          rcases hq with hq | ⟨h, hh, hq⟩
          · exact Or.inl (Or.inl hq)
          · exact Or.inl (Or.inr ⟨h, hh, hq.symm⟩)
        · exact Or.inr ⟨i, hi, hq⟩
    | mkdirAll p => simpa [wireRequests, sent] using ih
    | create n => simpa [wireRequests, sent] using ih
    | write n d => simpa [wireRequests, sent] using ih

/-- A request sent after a redirect carries an `Authorization` header only
when the first request carried one and the rule of the client lets it
follow. -/
theorem carriesAuth_hop {i : Request} {h : Hop} (hq : carriesAuth (hopRequest i h) = true) :
    h.keepsAuth = true ∧ carriesAuth i = true := by
  cases hk : h.keepsAuth
  · exfalso
    simp [carriesAuth, hopRequest, hk, sensitiveHeaders] at hq
  · refine ⟨rfl, ?_⟩
    simpa [carriesAuth, hopRequest, hk] using hq

/-- A request handed over without a header has none after a redirect. -/
theorem hopRequest_header_nil {i : Request} (h : Hop) (hi : i.header = []) :
    (hopRequest i h).header = [] := by
  cases hk : h.keepsAuth <;> simp [hopRequest, hk, hi]

/-- When `http.Get` refuses the signed URL, the run has sent two requests. -/
theorem sent_of_url_refused (w : World) (a : Args) (fs : FS) (r : Steps)
    (h : Resolved w a r) (hu : w.urlParse r.backupDownload.Attributes.Url = none) :
    sent (main w a fs).effects = [r.listingRequest a, r.downloadRequest a] := by
  rw [main_of_resolved fs h]
  simp [fetchAndStore, hu, sent]

/-- An element of a list is at some index. -/
theorem getElem?_of_mem {α : Type} {l : List α} {x : α} (h : x ∈ l) :
    ∃ k : Nat, l[k]? = some x := by
  obtain ⟨k, hk, rfl⟩ := List.getElem_of_mem h
  exact ⟨k, List.getElem?_eq_getElem hk⟩

/-- The run in which the directory step fails: it ends at `os.MkdirAll`
with what `MkdirAll` has made so far.  -/
theorem main_of_mkdirAll_failed {w : World} {a : Args} {fs : FS} {r : Steps}
    (h : Resolved w a r) (hu : (w.urlParse r.backupDownload.Attributes.Url).isSome = true)
    {wire : Bytes} {gz : Option Bytes} {rf : Bool}
    (ha : w.archive r.archiveRequest = ArchiveReply.body wire gz rf)
    (hd : ensureDir fs a.path = none) :
    (main w a fs).effects = r.requests a ++ [Effect.mkdirAll a.path]
    ∧ (main w a fs).fs = fs.mkdirAllLeft a.path
    ∧ (main w a fs).fatal = some (Fatal.failed "os.MkdirAll") := by
  rw [main_of_resolved fs h]
  obtain ⟨x, hx⟩ := Option.isSome_iff_exists.mp hu
  simp only [Steps.archiveRequest] at ha
  simp only [Args.path] at hd
  simp [fetchAndStore, hx, ha, hd, Steps.requests, Steps.archiveRequest, Args.path]

/-! ## The model on sample inputs -/

/-- The timestamp parser and the formatter on sample values: a plain
timestamp, a fraction with an offset, a one-digit hour, a second of 60, a
day that the month does not have, and a lower-case `t`. -/
theorem timeParse_samples :
    (timeParse "2023-05-01T12:30:45Z").map Time.Format = some "2023-05-01_12.30.45"
    ∧ (timeParse "2023-02-28T12:30:45.123456+05:30").map Time.Format
        = some "2023-02-28_12.30.45"
    ∧ (timeParse "2023-05-01T1:30:45Z").map Time.Format = some "2023-05-01_01.30.45"
    ∧ timeParse "2016-12-31T23:59:60Z" = none
    ∧ timeParse "2023-02-29T12:30:45Z" = none
    ∧ timeParse "2023-05-01t12:30:45Z" = none := by
  decide

/-- `filepath.Join` and path resolution on sample values. -/
theorem Join_samples :
    Join "./backups" "srv1" = "backups/srv1"
    ∧ Join "" "" = ""
    ∧ Join "a/../b//c/" "../x" = "b/x"
    ∧ Join "/" "x" = "/x"
    ∧ Join "../.." "x" = "../../x"
    ∧ absolute ["w", "home"] "backups/srv1" = some ["srv1", "backups", "w", "home"]
    ∧ absolute ["w", "home"] "../x" = some ["x", "home"] := by
  decide

/-- The run of the scenario of the specification, effect by effect. -/
theorem main_sample :
    (main Sample.panel2022 (Sample.args "key") Sample.emptyFS).effects
      = [Effect.send
          (panelRequest "https://panel.example.com/api/client/servers/1a2b/backups" "key"),
         Effect.send (panelRequest
          "https://panel.example.com/api/client/servers/1a2b/backups/bbbb/download" "key"),
         Effect.send (getRequest "https://node.example.com/dl?token=t"),
         Effect.mkdirAll "backups/1a2b",
         Effect.create "backups/1a2b/2022-01-01_00.00.00.tar.gz",
         Effect.write "backups/1a2b/2022-01-01_00.00.00.tar.gz" Sample.archiveBytes]
    ∧ (main Sample.panel2022 (Sample.args "key") Sample.emptyFS).fatal = none := by
  decide

/-- Decoding on sample values: keys are matched without regard to case, a
member that selects no field is skipped, and a value of the wrong type is an
error. -/
theorem unmarshal_samples :
    unmarshalBackups (Sample.listingJson "bbbb" true "2022-01-01T00:00:00Z")
        = some (Sample.decodedListing "bbbb" true "2022-01-01T00:00:00Z")
    ∧ unmarshalBackups (Json.obj [("DATA", Json.arr [Json.obj [("Attributes",
          Json.obj [("UUID", Json.str "x"), ("other", Json.num "1")])]])])
        = some { Data := [{ Attributes := { backupAttributes.zero with Uuid := "x" } }] }
    ∧ unmarshalBackups (Json.obj [("data", Json.str "x")]) = none
    ∧ unmarshalBackups Json.null = some { Data := [] }
    ∧ unmarshalBackupDownload Sample.ticketJson
        = some { Attributes := { Url := Sample.signedUrl } } := by
  decide

/-- A name of 256 bytes below a missing directory: `os.Stat` reports that
the path does not exist, `MkdirAll` makes the directory `missing` and fails
at the name the system refuses, and the run ends there without an output
file. -/
theorem mkdirAll_name_too_long :
    Sample.emptyFS.stat Sample.argsLong.path = StatResult.notExist
    ∧ ensureDir Sample.emptyFS Sample.argsLong.path = none
    ∧ (main Sample.panel2022 Sample.argsLong Sample.emptyFS).fatal
        = some (Fatal.failed "os.MkdirAll")
    ∧ created (main Sample.panel2022 Sample.argsLong Sample.emptyFS).effects = []
    ∧ (main Sample.panel2022 Sample.argsLong Sample.emptyFS).fs.stat "missing"
        = StatResult.found Node.dir
    ∧ (main Sample.panel2022 Sample.argsLong Sample.emptyFS).fs.stat Sample.argsLong.path
        = StatResult.failed := by
  set_option maxRecDepth 100000 in
  refine ⟨by decide, by rfl, by decide, by decide, by decide, by decide⟩

/-- Where no entry can be made below `backups`, `MkdirAll` makes `backups`
and fails, and the run ends there without an output file. -/
theorem mkdirAll_no_room :
    Sample.fullFS.stat "backups/1a2b" = StatResult.notExist
    ∧ ensureDir Sample.fullFS "backups/1a2b" = none
    ∧ (main Sample.panel2022 (Sample.args "key") Sample.fullFS).fatal
        = some (Fatal.failed "os.MkdirAll")
    ∧ created (main Sample.panel2022 (Sample.args "key") Sample.fullFS).effects = []
    ∧ (main Sample.panel2022 (Sample.args "key") Sample.fullFS).fs.stat "backups"
        = StatResult.found Node.dir
    ∧ (main Sample.panel2022 (Sample.args "key") Sample.fullFS).fs.stat "backups/1a2b"
        = StatResult.notExist := by
  refine ⟨by decide, by rfl, by decide, by decide, by decide, by decide⟩

/-! ## The claims -/

/-- C1: for a listing response whose data sequence has N ≥ 1 records the
candidate is the record at index N-1, whatever the `created_at` values are.
When that record is successful and its request can be built, the second
request of the run is the download-resolution request for its uuid; a second
request is never for another record; the name of an output file is made from
its `created_at`; and a run that goes through has selected it and creates
exactly the file named after its `created_at`. -/
theorem selects_last_record (w : World) (a : Args) (fs : FS) (r : Steps)
    (h : Listed w a r) (hN : 1 ≤ r.bs.Data.length) :
    ((r.bs.Data.get ⟨r.bs.Data.length - 1, by omega⟩).Attributes.IsSuccessful = true →
      (w.urlParse (downloadUrl r.base a.serverId
        (r.bs.Data.get ⟨r.bs.Data.length - 1, by omega⟩).Attributes.Uuid)).isSome = true →
      (sent (main w a fs).effects)[1]? = some (panelRequest (downloadUrl r.base a.serverId
        (r.bs.Data.get ⟨r.bs.Data.length - 1, by omega⟩).Attributes.Uuid) a.apiKey))
    ∧ (∀ q, (sent (main w a fs).effects)[1]? = some q →
        q = panelRequest (downloadUrl r.base a.serverId
          (r.bs.Data.get ⟨r.bs.Data.length - 1, by omega⟩).Attributes.Uuid) a.apiKey)
    ∧ (∀ name, Effect.create name ∈ (main w a fs).effects →
        (timeParse (r.bs.Data.get ⟨r.bs.Data.length - 1, by omega⟩).Attributes.CreatedAt).map
          (outputName a.path) = some name)
    ∧ (Stores w a fs r →
        r.targetBackup = r.bs.Data.get ⟨r.bs.Data.length - 1, by omega⟩
        ∧ timeParse (r.bs.Data.get ⟨r.bs.Data.length - 1, by omega⟩).Attributes.CreatedAt
            = some r.t
        ∧ created (main w a fs).effects = [outputName a.path r.t]) := by
  refine ⟨?_, second_request_of_listed w a fs r h hN, ?_, ?_⟩
  · intro hs hu
    have ht := selectTarget_of_successful r.bs hN hs
    obtain ⟨x, hx⟩ := Option.isSome_iff_exists.mp hu
    rw [main_of_listed fs h]
    rcases resolveAndFetch_shape w a fs [Effect.send (r.listingRequest a)] r.base r.bs with
      ⟨e, he, _⟩ | ⟨tb, htb, hno, _⟩ | ⟨tb, extra, htb, _, he, _, _⟩
    · rw [ht] at he
      exact absurd he (by simp)
    · rw [ht] at htb
      injection htb with htb
      subst htb
      rw [hx] at hno
      exact absurd hno (by simp)
    · rw [ht] at htb
      injection htb with htb
      subst htb
      simp [he, sent]
  · intro name hn
    rw [main_of_listed fs h] at hn
    rcases resolveAndFetch_shape w a fs [Effect.send (r.listingRequest a)] r.base r.bs with
      ⟨e, _, ho⟩ | ⟨tb, _, _, ho⟩ | ⟨tb, extra, ht, _, he, _, hc⟩
    · simp [ho] at hn
    · simp [ho] at hn
    · obtain ⟨_, htb, _⟩ := selectTarget_ok ht
      subst htb
      simp [he] at hn
      obtain ⟨t, ht1, ht2⟩ := hc name hn
      rw [ht1, ht2]
      rfl
  · intro hs
    obtain ⟨_, htb, _⟩ := selectTarget_ok hs.htarget
    refine ⟨htb, by rw [← htb]; exact hs.htime, ?_⟩
    rw [main_of_stores hs]
    simp [Steps.outcome, Steps.requests, created_append, created, created_made hs.hdir,
      Steps.name]

/-- C1 witness: the scenario of the specification.  Of two records, the
first failed and carries the later `created_at`, the second succeeded at
`2022-01-01T00:00:00Z`: the second request of the run asks for the second
record, and the file the run creates is named after it. -/
theorem selects_last_record_witness :
    Listed Sample.panel2022 (Sample.args "key") Sample.steps2022
    ∧ 1 ≤ Sample.steps2022.bs.Data.length
    ∧ Stores Sample.panel2022 (Sample.args "key") Sample.emptyFS Sample.steps2022
    ∧ (sent (main Sample.panel2022 (Sample.args "key") Sample.emptyFS).effects)[1]?
        = some (panelRequest
            "https://panel.example.com/api/client/servers/1a2b/backups/bbbb/download" "key")
    ∧ created (main Sample.panel2022 (Sample.args "key") Sample.emptyFS).effects
        = ["backups/1a2b/2022-01-01_00.00.00.tar.gz"] :=
  have hs : Stores Sample.panel2022 (Sample.args "key") Sample.emptyFS Sample.steps2022 :=
    ⟨⟨⟨⟨by decide, by decide, by rfl, by decide⟩, by rfl, by decide, by rfl, by decide⟩,
      by decide, by rfl, by rfl⟩, by decide, by rfl⟩
  ⟨hs.toListed, by decide, hs,
    (selects_last_record Sample.panel2022 (Sample.args "key") Sample.emptyFS Sample.steps2022
      hs.toListed (by decide)).1 (by decide) (by decide),
    ((selects_last_record Sample.panel2022 (Sample.args "key") Sample.emptyFS Sample.steps2022
      hs.toListed (by decide)).2.2.2 hs).2.2⟩

/-- C2, as stated, fails: the listing is parsed, its data sequence is not
empty and its last record is successful, but the uuid of that record is
`%zz`, `http.NewRequest` refuses the target built from it, and the run ends
with only the listing request sent. -/
theorem download_request_gate_counterexample :
    unmarshalBackups (Sample.listingJson "%zz" true "2022-01-01T00:00:00Z")
        = some (Sample.decodedListing "%zz" true "2022-01-01T00:00:00Z")
    ∧ (Sample.decodedListing "%zz" true "2022-01-01T00:00:00Z").Data.getLast?
        = some (Sample.decodedRecord "%zz" true "2022-01-01T00:00:00Z")
    ∧ (Sample.decodedRecord "%zz" true "2022-01-01T00:00:00Z").Attributes.IsSuccessful = true
    ∧ sent (main (Sample.panel "%zz" true "2022-01-01T00:00:00Z") (Sample.args "key")
          Sample.emptyFS).effects
        = [panelRequest "https://panel.example.com/api/client/servers/1a2b/backups" "key"]
    ∧ (main (Sample.panel "%zz" true "2022-01-01T00:00:00Z") (Sample.args "key")
          Sample.emptyFS).fatal = some (Fatal.failed "http.NewRequest") := by
  decide

/-- C2 as amended: once the listing response is parsed, the
download-resolution request is sent if and only if the data sequence is not
empty, its last record is successful and `http.NewRequest` accepts the
target built from the uuid of that record; otherwise the run ends with an
error, the listing request is the only effect and the filesystem is as it
was. -/
theorem download_request_gate (w : World) (a : Args) (fs : FS) (r : Steps)
    (h : Listed w a r) :
    (2 ≤ (sent (main w a fs).effects).length ↔
      ∃ b, r.bs.Data.getLast? = some b ∧ b.Attributes.IsSuccessful = true
        ∧ (w.urlParse (downloadUrl r.base a.serverId b.Attributes.Uuid)).isSome = true)
    ∧ ((¬ ∃ b, r.bs.Data.getLast? = some b ∧ b.Attributes.IsSuccessful = true
          ∧ (w.urlParse (downloadUrl r.base a.serverId b.Attributes.Uuid)).isSome = true) →
        (main w a fs).effects = [Effect.send (r.listingRequest a)]
          ∧ (main w a fs).fatal.isSome = true ∧ (main w a fs).fs = fs) := by
  rw [main_of_listed fs h]
  rcases resolveAndFetch_shape w a fs [Effect.send (r.listingRequest a)] r.base r.bs with
    ⟨e, ht, ho⟩ | ⟨tb, ht, hu, ho⟩ | ⟨tb, extra, ht, hu, he, hs, hc⟩
  · have hno : ¬ ∃ b, r.bs.Data.getLast? = some b ∧ b.Attributes.IsSuccessful = true
        ∧ (w.urlParse (downloadUrl r.base a.serverId b.Attributes.Uuid)).isSome = true := by
      rintro ⟨b, hb, hs, _⟩
      by_cases hlen : r.bs.Data.length = 0
      · simp [List.length_eq_zero.mp hlen] at hb
      · have hne : 1 ≤ r.bs.Data.length := by omega
        rw [getLast_of_get hne] at hb
        injection hb with hb
        subst hb
        have : r.bs.Data.length ≠ 0 := hlen
        simp only [List.get_eq_getElem] at hs
        simp [selectTarget, this, hs] at ht
    simp [ho, sent, hno]
  · obtain ⟨hne, htb, _⟩ := selectTarget_ok ht
    have hno : ¬ ∃ b, r.bs.Data.getLast? = some b ∧ b.Attributes.IsSuccessful = true
        ∧ (w.urlParse (downloadUrl r.base a.serverId b.Attributes.Uuid)).isSome = true := by
      rintro ⟨b, hb, _, hs⟩
      rw [getLast_of_get hne, ← htb] at hb
      injection hb with hb
      subst hb
      simp [hu] at hs
    simp [ho, sent, hno]
  · obtain ⟨hne, htb, hok⟩ := selectTarget_ok ht
    have hyes : ∃ b, r.bs.Data.getLast? = some b ∧ b.Attributes.IsSuccessful = true
        ∧ (w.urlParse (downloadUrl r.base a.serverId b.Attributes.Uuid)).isSome = true :=
      ⟨tb, by rw [getLast_of_get hne, ← htb], hok, hu⟩
    refine ⟨⟨fun _ => hyes, fun _ => ?_⟩, fun hn => absurd hyes hn⟩
    simp [he, sent, sent_append]

/-- C2 witness: on the sample panel the last record is successful and its
target is accepted, and the second request is sent. -/
theorem download_request_gate_witness :
    Listed Sample.panel2022 (Sample.args "key") Sample.steps2022
    ∧ 2 ≤ (sent (main Sample.panel2022 (Sample.args "key") Sample.emptyFS).effects).length :=
  have hl : Listed Sample.panel2022 (Sample.args "key") Sample.steps2022 :=
    ⟨by decide, by decide, by rfl, by decide⟩
  ⟨hl, (download_request_gate Sample.panel2022 (Sample.args "key") Sample.emptyFS
    Sample.steps2022 hl).1.mpr
      ⟨Sample.decodedRecord "bbbb" true "2022-01-01T00:00:00Z", by decide, by decide,
        by decide⟩⟩

/-- C3, as stated, fails: `2016-12-31T23:59:60Z`, the leap second at the end
of 2016, is a timestamp of RFC 3339, but `time.Parse` refuses a second of
60, and the run ends there without creating a file. -/
theorem output_name_of_timestamp_counterexample :
    readRFC3339 "2016-12-31T23:59:60Z".data
        = some ({ year := 2016, month := 12, day := 31, hour := 23, minute := 59,
                  second := 60 }, true)
    ∧ timeParse "2016-12-31T23:59:60Z" = none
    ∧ (main (Sample.panel "bbbb" true "2016-12-31T23:59:60Z") (Sample.args "key")
          Sample.emptyFS).fatal = some (Fatal.failed "time.Parse")
    ∧ created (main (Sample.panel "bbbb" true "2016-12-31T23:59:60Z") (Sample.args "key")
          Sample.emptyFS).effects = [] := by
  decide

/-- C3 as amended: for every `created_at` that is a timestamp of RFC 3339
written with upper-case `T` and `Z` and with a second of at most 59,
`time.Parse` succeeds with the fields as written, the run does not fail at
the parse, and the name of the output file is the directory, `/`, the
fields as `YYYY-MM-DD_HH.MM.SS` (zero-padded) and `.tar.gz`. -/
theorem output_name_of_timestamp (s : String) (t : Time)
    (h : readRFC3339 s.data = some (t, true)) (hs : t.second ≤ 59) :
    timeParse s = some t
    ∧ ∀ (w : World) (a : Args) (fs : FS) (r : Steps), Fetched w a fs r →
        r.targetBackup.Attributes.CreatedAt = s →
        (main w a fs).fatal ≠ some (Fatal.failed "time.Parse")
        ∧ ∀ name, Effect.create name ∈ (main w a fs).effects →
            name = a.path ++ "/" ++ String.mk (zeroPad 4 t.year ++ ['-']
              ++ zeroPad 2 t.month ++ ['-'] ++ zeroPad 2 t.day ++ ['_'] ++ zeroPad 2 t.hour
              ++ ['.'] ++ zeroPad 2 t.minute ++ ['.'] ++ zeroPad 2 t.second) ++ ".tar.gz" := by
  have hp : timeParse s = some t := (timeParse_of_read h).2.2.2.2.2.2.2.2 rfl hs
  refine ⟨hp, ?_⟩
  intro w a fs r hr hc
  have hmade : ∀ name, Effect.create name ∉ r.made := fun name => create_not_mem_made hr.hdir
  rw [main_of_fetched hr, hc, hp]
  rcases hcr : r.fs1.create (outputName a.path t) with _ | ⟨fs2, out⟩
  · simp only [hcr]
    refine ⟨by simp, ?_⟩
    intro name hn
    simp [Steps.requests, hmade] at hn
  · simp only [hcr]
    refine ⟨by cases r.readFails <;> simp, ?_⟩
    intro name hn
    simp [Steps.requests, hmade] at hn
    rw [hn, outputName, format_of_read h]

/-- C3 witness: `created_at = 2023-05-01T12:30:45Z` gives the file name
`2023-05-01_12.30.45.tar.gz` in the directory `backups/1a2b`. -/
theorem output_name_of_timestamp_witness :
    readRFC3339 "2023-05-01T12:30:45Z".data
        = some ({ year := 2023, month := 5, day := 1, hour := 12, minute := 30,
                  second := 45 }, true)
    ∧ Fetched (Sample.panel "bbbb" true "2023-05-01T12:30:45Z") (Sample.args "key")
        Sample.emptyFS Sample.steps2023
    ∧ Effect.create "backups/1a2b/2023-05-01_12.30.45.tar.gz"
        ∈ (main (Sample.panel "bbbb" true "2023-05-01T12:30:45Z") (Sample.args "key")
            Sample.emptyFS).effects
    ∧ "backups/1a2b/2023-05-01_12.30.45.tar.gz"
        = "backups/1a2b" ++ "/" ++ "2023-05-01_12.30.45" ++ ".tar.gz" :=
  have hf : Fetched (Sample.panel "bbbb" true "2023-05-01T12:30:45Z") (Sample.args "key")
      Sample.emptyFS Sample.steps2023 :=
    ⟨⟨⟨by decide, by decide, by rfl, by decide⟩, by rfl, by decide, by rfl, by decide⟩,
      by decide, by rfl, by rfl⟩
  ⟨by decide, hf, by decide,
    ((output_name_of_timestamp "2023-05-01T12:30:45Z"
      { year := 2023, month := 5, day := 1, hour := 12, minute := 30, second := 45 }
      (by decide) (by decide)).2 _ (Sample.args "key") Sample.emptyFS Sample.steps2023 hf
      (by rfl)).2 "backups/1a2b/2023-05-01_12.30.45.tar.gz" (by decide)⟩

/-- C4, as stated, fails: the archive server answers the GET with
`Content-Encoding: gzip` and a body of 22 bytes, which the transport of
`http.Get` decodes; the run completes without error, and the one file it
creates holds the two decoded bytes, not the 22 bytes of the response
body. -/
theorem output_file_equals_body_counterexample :
    Sample.gzipWorld.archive (getRequest Sample.signedUrl)
        = ArchiveReply.body Sample.gzipBody (some [104, 105]) false
    ∧ Sample.gzipBody.length = 22
    ∧ (main Sample.gzipWorld (Sample.args "key") Sample.emptyFS).fatal = none
    ∧ created (main Sample.gzipWorld (Sample.args "key") Sample.emptyFS).effects
        = ["backups/1a2b/2022-01-01_00.00.00.tar.gz"]
    ∧ (main Sample.gzipWorld (Sample.args "key") Sample.emptyFS).fs.readFile
        "backups/1a2b/2022-01-01_00.00.00.tar.gz" = some [104, 105]
    ∧ (main Sample.gzipWorld (Sample.args "key") Sample.emptyFS).fs.readFile
        "backups/1a2b/2022-01-01_00.00.00.tar.gz" ≠ some Sample.gzipBody := by
  refine ⟨by rfl, by decide, by decide, by decide, by decide, by decide⟩

/-- C4 as amended: when the run completes without error, exactly one file
has been created and its content is what the HTTP client delivers as the
body of the signed-URL response, byte for byte, whatever it is: the body of
the response itself when the answer is not one the transport decodes, and
the decoded bytes when the answer carries `Content-Encoding: gzip`. -/
theorem output_file_equals_body (w : World) (a : Args) (fs : FS) (r : Steps)
    (h : Fetched w a fs r) (hc : (main w a fs).fatal = none) :
    w.archive r.archiveRequest = ArchiveReply.body r.wire r.gzip false
    ∧ (created (main w a fs).effects).length = 1
    ∧ (∀ name, name ∈ created (main w a fs).effects →
        (main w a fs).fs.readFile name = some (delivered r.wire r.gzip))
    ∧ (r.gzip = none → ∀ name, name ∈ created (main w a fs).effects →
        (main w a fs).fs.readFile name = some r.wire)
    ∧ (∀ d, r.gzip = some d → ∀ name, name ∈ created (main w a fs).effects →
        (main w a fs).fs.readFile name = some d) := by
  have hm := created_made h.hdir
  have key : w.archive r.archiveRequest = ArchiveReply.body r.wire r.gzip false
      ∧ (created (main w a fs).effects).length = 1
      ∧ (∀ name, name ∈ created (main w a fs).effects →
          (main w a fs).fs.readFile name = some (delivered r.wire r.gzip)) := by
    rw [main_of_fetched h] at hc ⊢
    rcases htp : timeParse r.targetBackup.Attributes.CreatedAt with _ | t
    · simp [htp] at hc
    simp only [htp] at hc ⊢
    rcases hcr : r.fs1.create (outputName a.path t) with _ | ⟨fs2, out⟩
    · simp [hcr] at hc
    simp only [hcr] at hc ⊢
    have hrf : r.readFails = false := by
      cases hb : r.readFails
      · rfl
      · simp [hb] at hc
    refine ⟨by rw [← hrf]; exact h.harchive, ?_, ?_⟩
    · simp [created_append, Steps.requests, created, hm]
    · intro name hn
      simp [created_append, Steps.requests, created, hm] at hn
      subst hn
      exact readFile_after_create hcr
  refine ⟨key.1, key.2.1, key.2.2, ?_, ?_⟩
  · intro hg name hn
    rw [key.2.2 name hn, hg]
    rfl
  · intro d hg name hn
    rw [key.2.2 name hn, hg]
    rfl

/-- C4 witness: the sample run, whose archive answer is not encoded,
completes and the file holds the five bytes of the response body; the run
with the gzip answer completes and the file holds the decoded bytes. -/
theorem output_file_equals_body_witness :
    Fetched Sample.panel2022 (Sample.args "key") Sample.emptyFS Sample.steps2022
    ∧ (main Sample.panel2022 (Sample.args "key") Sample.emptyFS).fatal = none
    ∧ (main Sample.panel2022 (Sample.args "key") Sample.emptyFS).fs.readFile
        "backups/1a2b/2022-01-01_00.00.00.tar.gz" = some [31, 139, 8, 0, 255]
    ∧ Fetched Sample.gzipWorld (Sample.args "key") Sample.emptyFS Sample.stepsGzip
    ∧ (main Sample.gzipWorld (Sample.args "key") Sample.emptyFS).fs.readFile
        "backups/1a2b/2022-01-01_00.00.00.tar.gz" = some [104, 105] :=
  have hf : Fetched Sample.panel2022 (Sample.args "key") Sample.emptyFS Sample.steps2022 :=
    ⟨⟨⟨by decide, by decide, by rfl, by decide⟩, by rfl, by decide, by rfl, by decide⟩,
      by decide, by rfl, by rfl⟩
  have hg : Fetched Sample.gzipWorld (Sample.args "key") Sample.emptyFS Sample.stepsGzip :=
    ⟨⟨⟨by decide, by decide, by rfl, by decide⟩, by rfl, by decide, by rfl, by decide⟩,
      by decide, by rfl, by rfl⟩
  ⟨hf, by decide,
    (output_file_equals_body Sample.panel2022 (Sample.args "key") Sample.emptyFS
      Sample.steps2022 hf (by decide)).2.2.2.1 rfl "backups/1a2b/2022-01-01_00.00.00.tar.gz"
      (by decide),
    hg,
    (output_file_equals_body Sample.gzipWorld (Sample.args "key") Sample.emptyFS
      Sample.stepsGzip hg (by decide)).2.2.2.2 [104, 105] rfl
      "backups/1a2b/2022-01-01_00.00.00.tar.gz" (by decide)⟩

/-- C5, as stated, fails: with the base URL `https://panel.example.com` the
listing request goes to `https://panel.example.comapi/...`, with no `/`
between the base URL and `api`. -/
theorem request_targets_counterexample :
    (sent (main Sample.panel2022 Sample.argsNoSlash Sample.emptyFS).effects)[0]?
        = some (panelRequest "https://panel.example.comapi/client/servers/1a2b/backups" "key")
    ∧ "https://panel.example.comapi/client/servers/1a2b/backups"
        ≠ "https://panel.example.com" ++ "/api/client/servers/" ++ "1a2b" ++ "/backups" := by
  decide

/-- C5 as amended: the listing request is a GET to the base URL (as
`url.Parse` prints it back) followed directly by
`api/client/servers/{serverId}/backups`, and the download-resolution
request is a GET to the base URL followed directly by
`api/client/servers/{serverId}/backups/{uuid}/download`, with the uuid of
the last record; no `/` is put between the base URL and `api`. -/
theorem request_targets (w : World) (a : Args) (fs : FS) :
    (∀ base, w.urlParse a.url = some base →
      ∀ q, (sent (main w a fs).effects)[0]? = some q →
        q.method = "GET" ∧ q.url = base ++ "api/client/servers/" ++ a.serverId ++ "/backups")
    ∧ (∀ r, Listed w a r →
      ∀ q, (sent (main w a fs).effects)[1]? = some q →
        ∃ b, r.bs.Data.getLast? = some b ∧ q.method = "GET"
          ∧ q.url = r.base ++ "api/client/servers/" ++ a.serverId ++ "/backups/"
              ++ b.Attributes.Uuid ++ "/download") := by
  constructor
  · intro base hb q hq
    obtain ⟨uuid, u, pre⟩ := main_sent_initial w a fs
    have h0 := getElem?_of_initial pre hq
    simp [hb] at h0
    subst h0
    simp [panelRequest, listingUrl]
  · intro r h q hq
    have hN : 1 ≤ r.bs.Data.length := by
      by_contra hlen
      have := @selectTarget_empty r.bs (by omega)
      rw [main_of_listed fs h] at hq
      simp [resolveAndFetch, this, sent] at hq
    have := second_request_of_listed w a fs r h hN q hq
    exact ⟨_, getLast_of_get hN, by simp [this, panelRequest],
      by simp [this, panelRequest, downloadUrl]⟩

/-- C5 witness: with the base URL `https://panel.example.com/` the listing
request goes to `https://panel.example.com/api/client/servers/1a2b/backups`. -/
theorem request_targets_witness :
    Sample.panel2022.urlParse (Sample.args "key").url = some "https://panel.example.com/"
    ∧ (panelRequest "https://panel.example.com/api/client/servers/1a2b/backups" "key").method
        = "GET"
    ∧ (panelRequest "https://panel.example.com/api/client/servers/1a2b/backups" "key").url
        = "https://panel.example.com/" ++ "api/client/servers/" ++ "1a2b" ++ "/backups" :=
  ⟨by decide,
    (request_targets Sample.panel2022 (Sample.args "key") Sample.emptyFS).1
      "https://panel.example.com/" (by decide) _ (by decide)⟩

/-- C6, as stated, fails: the download response carries the signed URL at
`data.attributes.url`, the decoded `backupDownload` has an empty `Url`, and
the third request goes to the empty target, not to the signed URL. -/
theorem signed_url_source_counterexample :
    stringAt ["data", "attributes", "url"] Sample.wrappedTicketJson = some Sample.signedUrl
    ∧ unmarshalBackupDownload Sample.wrappedTicketJson = some { Attributes := { Url := "" } }
    ∧ (sent (main (Sample.world "key" "bbbb"
          (Sample.listingJson "bbbb" true "2022-01-01T00:00:00Z") Sample.wrappedTicketJson)
          (Sample.args "key") Sample.emptyFS).effects)[2]? = some (getRequest "")
    ∧ getRequest "" ≠ getRequest Sample.signedUrl
    ∧ (main (Sample.world "key" "bbbb"
          (Sample.listingJson "bbbb" true "2022-01-01T00:00:00Z") Sample.wrappedTicketJson)
          (Sample.args "key") Sample.emptyFS).fatal = some (Fatal.failed "http.Get") := by
  decide

/-- C6 as amended: the signed URL used for the archive GET is the string
found at `attributes.url` of the download-resolution response body: for
every response JSON carrying a url there, the decoded `Url` is that url, a
third request, if one is sent, goes to it, and one is sent whenever
`http.Get` accepts it as a target. -/
theorem signed_url_source (w : World) (a : Args) (fs : FS) (r : Steps) (u : String)
    (h : Resolved w a r) (hu : stringAt ["attributes", "url"] r.ticket = some u) :
    r.backupDownload.Attributes.Url = u
    ∧ (∀ q, (sent (main w a fs).effects)[2]? = some q → q = getRequest u)
    ∧ ((w.urlParse u).isSome = true →
        (sent (main w a fs).effects)[2]? = some (getRequest u)) := by
  have hbd : r.backupDownload = { Attributes := { Url := u } } := by
    have := unmarshal_of_stringAt hu
    rw [h.hdownload] at this
    injection this
  have hurl : r.backupDownload.Attributes.Url = u := by rw [hbd]
  refine ⟨hurl, ?_, ?_⟩
  · intro q hq
    rcases third_request_of_resolved w a fs r h with hs | hs
    · simp [hs] at hq
    · simp [hs, Steps.archiveRequest, hurl] at hq
      exact hq.symm
  · intro hp
    rw [archive_sent_of_url w a fs r h (by rw [hurl]; exact hp)]
    simp [Steps.archiveRequest, hurl]

/-- C6 witness: on the sample panel the url is at `attributes.url` and the
third request goes to it. -/
theorem signed_url_source_witness :
    Resolved Sample.panel2022 (Sample.args "key") Sample.steps2022
    ∧ stringAt ["attributes", "url"] Sample.ticketJson = some Sample.signedUrl
    ∧ (sent (main Sample.panel2022 (Sample.args "key") Sample.emptyFS).effects)[2]?
        = some (getRequest "https://node.example.com/dl?token=t") :=
  have hr : Resolved Sample.panel2022 (Sample.args "key") Sample.steps2022 :=
    ⟨⟨by decide, by decide, by rfl, by decide⟩, by rfl, by decide, by rfl, by decide⟩
  ⟨hr, by decide,
    (signed_url_source Sample.panel2022 (Sample.args "key") Sample.emptyFS Sample.steps2022
      Sample.signedUrl hr (by decide)).2.2 (by decide)⟩

/-- C7, as stated, fails: the panel answers the listing request with a
redirect to `mirror.panel.example.com`, a subdomain of its host, and the
client (`http.Client{}`, which follows redirects) sends the request again
with the `Authorization` header.  Four requests go over the wire, three of
them carry the key, one of these to a host other than the panel's, and the
third request on the wire is not the GET of the signed URL but the
download-resolution request with the key. -/
theorem api_key_stays_with_panel_counterexample :
    (main Sample.redirectWorld (Sample.args "key") Sample.emptyFS).fatal = none
    ∧ wireRequests Sample.redirectWorld
        (main Sample.redirectWorld (Sample.args "key") Sample.emptyFS).effects
      = [panelRequest "https://panel.example.com/api/client/servers/1a2b/backups" "key",
         { method := "GET",
           url := "https://mirror.panel.example.com/api/client/servers/1a2b/backups",
           header := [("Accept", "application/json"), ("Authorization", "Bearer key")] },
         panelRequest "https://panel.example.com/api/client/servers/1a2b/backups/bbbb/download"
           "key",
         getRequest "https://node.example.com/dl?token=t"]
    ∧ ((wireRequests Sample.redirectWorld
        (main Sample.redirectWorld (Sample.args "key") Sample.emptyFS).effects).filter
          carriesAuth).length = 3
    ∧ ((wireRequests Sample.redirectWorld
        (main Sample.redirectWorld (Sample.args "key") Sample.emptyFS).effects)[2]?).map
          carriesAuth = some true := by
  refine ⟨by decide, by decide, by decide, by decide⟩

/-- C7 as amended: the first two requests the program hands to the HTTP
client, the listing and the download-resolution request, carry exactly the
headers `Accept: application/json` and `Authorization: Bearer {apiKey}`; the
third, the GET of the signed URL, is handed over without a header of the
program, and so are the requests the client sends when that GET is
redirected; there is no fourth.  Two runs that receive the same
download-resolution response hand over the same third request, whatever
their API keys (and their other flags, worlds and filesystems) are.  On the
wire the key goes where the answers of the panel send it: a request that
carries an `Authorization` header is one of the first two requests handed
over, or one the client sends after a redirect of one of them that its rule
for sensitive headers lets the header follow (to the same host or a
subdomain of it); where no redirect is of that kind, the key is in the first
two requests only. -/
theorem api_key_stays_with_panel (w : World) (a : Args) (fs : FS) :
    (∀ base, w.urlParse a.url = some base →
        (w.urlParse (listingUrl base a.serverId)).isSome = true →
        (sent (main w a fs).effects)[0]?
          = some (panelRequest (listingUrl base a.serverId) a.apiKey))
    ∧ (∀ r, Resolved w a r →
        (sent (main w a fs).effects)[1]? = some (r.downloadRequest a)
        ∧ ((w.urlParse r.backupDownload.Attributes.Url).isSome = true →
            (sent (main w a fs).effects)[2]?
              = some (getRequest r.backupDownload.Attributes.Url)))
    ∧ (∀ q, ((sent (main w a fs).effects)[0]? = some q ∨ (sent (main w a fs).effects)[1]? = some q)
        → q.header = [("Accept", "application/json"), ("Authorization", "Bearer " ++ a.apiKey)])
    ∧ (∀ q, (sent (main w a fs).effects)[2]? = some q →
        q.header = [] ∧ ∀ h, h ∈ w.redirects q → (hopRequest q h).header = [])
    ∧ (sent (main w a fs).effects).length ≤ 3
    ∧ (∀ (r : Steps) (w' : World) (a' : Args) (fs' : FS) (r' : Steps),
        Resolved w a r → Resolved w' a' r' → r.ticket = r'.ticket →
        (∀ q q', (sent (main w a fs).effects)[2]? = some q →
          (sent (main w' a' fs').effects)[2]? = some q' → q = q')
        ∧ ((w.urlParse r.backupDownload.Attributes.Url).isSome
              = (w'.urlParse r.backupDownload.Attributes.Url).isSome →
            (sent (main w a fs).effects)[2]? = (sent (main w' a' fs').effects)[2]?))
    ∧ (∀ q, q ∈ wireRequests w (main w a fs).effects → carriesAuth q = true →
        ∃ i, ((sent (main w a fs).effects)[0]? = some i
              ∨ (sent (main w a fs).effects)[1]? = some i)
          ∧ (q = i ∨ ∃ h, h ∈ w.redirects i ∧ h.keepsAuth = true ∧ q = hopRequest i h))
    ∧ ((∀ i h, h ∈ w.redirects i → h.keepsAuth = false) →
        ∀ q, q ∈ wireRequests w (main w a fs).effects → carriesAuth q = true →
          (sent (main w a fs).effects)[0]? = some q
          ∨ (sent (main w a fs).effects)[1]? = some q) := by
  obtain ⟨uuid, u, pre⟩ := main_sent_initial w a fs
  have hwire : ∀ q, q ∈ wireRequests w (main w a fs).effects → carriesAuth q = true →
      ∃ i, ((sent (main w a fs).effects)[0]? = some i
            ∨ (sent (main w a fs).effects)[1]? = some i)
        ∧ (q = i ∨ ∃ h, h ∈ w.redirects i ∧ h.keepsAuth = true ∧ q = hopRequest i h) := by
    intro q hq hauth
    obtain ⟨i, hi, hqi⟩ := (mem_wireRequests _).mp hq
    have hia : carriesAuth i = true := by
      rcases hqi with rfl | ⟨h, _, rfl⟩
      · exact hauth
      · exact (carriesAuth_hop hauth).2
    obtain ⟨k, hk⟩ := getElem?_of_mem hi
    have hk3 := getElem?_of_initial pre hk
    have hpos : k = 0 ∨ k = 1 := by
      rcases k with _ | _ | _ | k
      · exact Or.inl rfl
      · exact Or.inr rfl
      · simp at hk3
        subst hk3
        simp [carriesAuth, getRequest] at hia
      · simp at hk3
    refine ⟨i, ?_, ?_⟩
    · rcases hpos with rfl | rfl
      · exact Or.inl hk
      · exact Or.inr hk
    · rcases hqi with rfl | ⟨h, hh, rfl⟩
      · exact Or.inl rfl
      · exact Or.inr ⟨h, hh, (carriesAuth_hop hauth).1, rfl⟩
  refine ⟨?_, ?_, ?_, ?_, ?_, ?_, hwire, ?_⟩
  · intro base hb hl
    obtain ⟨x, hx⟩ := Option.isSome_iff_exists.mp hl
    rcases h3 : w.listing (panelRequest (listingUrl base a.serverId) a.apiKey) with
      _ | _ | (_ | j)
    · simp [main, hb, hx, h3, sent]
    · simp [main, hb, hx, h3, sent]
    · simp [main, hb, hx, h3, sent]
    rcases h4 : unmarshalBackups j with _ | bs
    · simp [main, hb, hx, h3, h4, sent]
    have hl : Listed w a { Sample.steps2022 with base := base, listing := j, bs := bs } :=
      ⟨hb, hl, h3, h4⟩
    rw [main_of_listed fs hl]
    rcases resolveAndFetch_shape w a fs
        [Effect.send (panelRequest (listingUrl base a.serverId) a.apiKey)] base bs with
      ⟨e, _, ho⟩ | ⟨tb, _, _, ho⟩ | ⟨tb, extra, _, _, he, _, _⟩
    · simp [Steps.listingRequest, ho, sent]
    · simp [Steps.listingRequest, ho, sent]
    · simp [Steps.listingRequest, he, sent]
  · intro r h
    constructor
    · rcases third_request_of_resolved w a fs r h with hs | hs <;> simp [hs]
    · intro hu
      simp [archive_sent_of_url w a fs r h hu, Steps.archiveRequest]
  · rintro q (hq | hq)
    · have := getElem?_of_initial pre hq
      simp at this
      subst this
      rfl
    · have := getElem?_of_initial pre hq
      simp at this
      subst this
      rfl
  · intro q hq
    have := getElem?_of_initial pre hq
    simp at this
    subst this
    exact ⟨rfl, fun h _ => hopRequest_header_nil h rfl⟩
  · simpa using pre.length_le
  · intro r w' a' fs' r' h h' ht
    have hbd : r.backupDownload = r'.backupDownload := by
      have e1 := h.hdownload
      have e2 := h'.hdownload
      rw [ht, e2] at e1
      injection e1 with e1
      exact e1.symm
    constructor
    · intro q q' hq hq'
      rcases third_request_of_resolved w a fs r h with hs | hs
      · simp [hs] at hq
      rcases third_request_of_resolved w' a' fs' r' h' with hs' | hs'
      · simp [hs'] at hq'
      simp [hs, Steps.archiveRequest] at hq
      simp [hs', Steps.archiveRequest] at hq'
      rw [← hq, ← hq', hbd]
    · intro hsame
      rcases hu : w.urlParse r.backupDownload.Attributes.Url with _ | x
      · have hu' : w'.urlParse r'.backupDownload.Attributes.Url = none := by
          rw [hu] at hsame
          rw [← hbd]
          rcases hv : w'.urlParse r.backupDownload.Attributes.Url with _ | y
          · rfl
          · simp [hv] at hsame
        simp [sent_of_url_refused w a fs r h hu, sent_of_url_refused w' a' fs' r' h' hu']
      · have hu1 : (w.urlParse r.backupDownload.Attributes.Url).isSome = true := by simp [hu]
        have hu' : (w'.urlParse r'.backupDownload.Attributes.Url).isSome = true := by
          rw [← hbd, ← hsame]
          exact hu1
        simp [archive_sent_of_url w a fs r h hu1, archive_sent_of_url w' a' fs' r' h' hu',
          Steps.archiveRequest, hbd]
  · intro hno q hq hauth
    obtain ⟨i, hi, hqi⟩ := hwire q hq hauth
    rcases hqi with rfl | ⟨h, hh, hk, _⟩
    · exact hi
    · rw [hno i h hh] at hk
      exact absurd hk (by simp)

/-- C7 witness: two runs with the keys `key1` and `key2` against panels
that hand out the same download response.  The first request of the first
run is the listing request with `Bearer key1`, both runs hand over the same
third request, and on the wire of the first run, whose panel does not
redirect, the download-resolution request carries the key as the second
request handed over. -/
theorem api_key_stays_with_panel_witness :
    Resolved (Sample.world "key1" "bbbb" (Sample.listingJson "bbbb" true "2022-01-01T00:00:00Z")
        Sample.ticketJson) (Sample.args "key1") Sample.steps2022
    ∧ Resolved (Sample.world "key2" "bbbb"
        (Sample.listingJson "bbbb" true "2022-01-01T00:00:00Z") Sample.ticketJson)
        (Sample.args "key2") Sample.steps2022
    ∧ (sent (main (Sample.world "key1" "bbbb"
          (Sample.listingJson "bbbb" true "2022-01-01T00:00:00Z") Sample.ticketJson)
          (Sample.args "key1") Sample.emptyFS).effects)[0]?
        = some (panelRequest "https://panel.example.com/api/client/servers/1a2b/backups" "key1")
    ∧ (sent (main (Sample.world "key1" "bbbb"
          (Sample.listingJson "bbbb" true "2022-01-01T00:00:00Z") Sample.ticketJson)
          (Sample.args "key1") Sample.emptyFS).effects)[2]?
        = (sent (main (Sample.world "key2" "bbbb"
          (Sample.listingJson "bbbb" true "2022-01-01T00:00:00Z") Sample.ticketJson)
          (Sample.args "key2") Sample.emptyFS).effects)[2]?
    ∧ ((sent (main (Sample.world "key1" "bbbb"
          (Sample.listingJson "bbbb" true "2022-01-01T00:00:00Z") Sample.ticketJson)
          (Sample.args "key1") Sample.emptyFS).effects)[0]?
        = some (panelRequest
            "https://panel.example.com/api/client/servers/1a2b/backups/bbbb/download" "key1")
      ∨ (sent (main (Sample.world "key1" "bbbb"
          (Sample.listingJson "bbbb" true "2022-01-01T00:00:00Z") Sample.ticketJson)
          (Sample.args "key1") Sample.emptyFS).effects)[1]?
        = some (panelRequest
            "https://panel.example.com/api/client/servers/1a2b/backups/bbbb/download" "key1")) :=
  have h1 : Resolved (Sample.world "key1" "bbbb"
      (Sample.listingJson "bbbb" true "2022-01-01T00:00:00Z") Sample.ticketJson)
      (Sample.args "key1") Sample.steps2022 :=
    ⟨⟨by decide, by decide, by rfl, by decide⟩, by rfl, by decide, by rfl, by decide⟩
  have h2 : Resolved (Sample.world "key2" "bbbb"
      (Sample.listingJson "bbbb" true "2022-01-01T00:00:00Z") Sample.ticketJson)
      (Sample.args "key2") Sample.steps2022 :=
    ⟨⟨by decide, by decide, by rfl, by decide⟩, by rfl, by decide, by rfl, by decide⟩
  ⟨h1, h2,
    (api_key_stays_with_panel (Sample.world "key1" "bbbb"
      (Sample.listingJson "bbbb" true "2022-01-01T00:00:00Z") Sample.ticketJson)
      (Sample.args "key1") Sample.emptyFS).1 "https://panel.example.com/" (by decide)
      (by decide),
    ((api_key_stays_with_panel (Sample.world "key1" "bbbb"
      (Sample.listingJson "bbbb" true "2022-01-01T00:00:00Z") Sample.ticketJson)
      (Sample.args "key1") Sample.emptyFS).2.2.2.2.2.1 Sample.steps2022
      (Sample.world "key2" "bbbb" (Sample.listingJson "bbbb" true "2022-01-01T00:00:00Z")
        Sample.ticketJson) (Sample.args "key2") Sample.emptyFS Sample.steps2022 h1 h2 rfl).2
      (by decide),
    (api_key_stays_with_panel (Sample.world "key1" "bbbb"
      (Sample.listingJson "bbbb" true "2022-01-01T00:00:00Z") Sample.ticketJson)
      (Sample.args "key1") Sample.emptyFS).2.2.2.2.2.2.2
      (fun _ _ hh => absurd hh (by simp [Sample.world]))
      (panelRequest "https://panel.example.com/api/client/servers/1a2b/backups/bbbb/download"
        "key1") (by decide) (by decide)⟩

/-- C8, as stated, fails: where `backups` is a regular file the directory
`backups/1a2b` does not exist, `os.Stat` reports a path that runs through a
file and not a missing one, `MkdirAll` is not called, the directory is not
there afterwards either, and the run ends at `os.Create`. -/
theorem directory_step_counterexample :
    (Sample.args "key").path = "backups/1a2b"
    ∧ Sample.blockedFS.stat "backups/1a2b" = StatResult.notDir
    ∧ (main Sample.panel2022 (Sample.args "key") Sample.blockedFS).effects
        = [Effect.send
            (panelRequest "https://panel.example.com/api/client/servers/1a2b/backups" "key"),
           Effect.send (panelRequest
            "https://panel.example.com/api/client/servers/1a2b/backups/bbbb/download" "key"),
           Effect.send (getRequest "https://node.example.com/dl?token=t")]
    ∧ (main Sample.panel2022 (Sample.args "key") Sample.blockedFS).fatal
        = some (Fatal.failed "os.Create")
    ∧ (main Sample.panel2022 (Sample.args "key") Sample.blockedFS).fs.stat "backups/1a2b"
        = StatResult.notDir := by
  decide

/-- C8 as amended: in a filesystem that is a tree, for a non-empty path
`{backupDir}/{serverId}` (as `filepath.Join` makes it): if `os.Stat` reports
that the path does not exist and the system lets every missing directory on
the way be made (no name it refuses, room for the entry), the directory step
succeeds by `MkdirAll`; whenever the step succeeds from such a state, the
directory and every ancestor of it is a directory afterwards and nothing
else has changed; if the path is a directory already, the step raises no
error, does nothing and leaves the filesystem as it is; in a run that
creates the output file from a state where the path did not exist,
`MkdirAll` comes before `os.Create`, which acts on the filesystem in which
the directory exists; and when the step fails, the run ends with the error
of `os.MkdirAll` after the three requests, leaves what `MkdirAll` had made
and creates no output file. -/
theorem directory_step (a : Args) (fs : FS) (hwf : fs.WellFormed) :
    (a.path ≠ "" → fs.stat a.path = StatResult.notExist →
      (∀ p, absolute fs.cwd a.path = some p →
        ∀ q, q <:+ p → fs.statLoc q = StatResult.notExist → fs.canMake q = true) →
      (ensureDir fs a.path).isSome = true)
    ∧ (fs.stat a.path = StatResult.notExist →
        ∀ fs1 made, ensureDir fs a.path = some (fs1, made) →
          made = [Effect.mkdirAll a.path]
          ∧ fs1.stat a.path = StatResult.found Node.dir
          ∧ ∀ p, absolute fs.cwd a.path = some p →
              (∀ q, q <:+ p → fs1.statLoc q = StatResult.found Node.dir)
              ∧ (∀ q, ¬ q <:+ p → fs1.node q = fs.node q))
    ∧ (fs.stat a.path = StatResult.found Node.dir → ensureDir fs a.path = some (fs, []))
    ∧ (∀ w r, Stores w a fs r → fs.stat a.path = StatResult.notExist →
        (main w a fs).effects = r.requests a ++ [Effect.mkdirAll a.path,
            Effect.create (r.name a), Effect.write (r.name a) r.data]
          ∧ r.fs1.stat a.path = StatResult.found Node.dir
          ∧ r.fs1.create (r.name a) = some (r.fs2, r.out))
    ∧ (∀ w r wire gz rf, Resolved w a r →
        (w.urlParse r.backupDownload.Attributes.Url).isSome = true →
        w.archive r.archiveRequest = ArchiveReply.body wire gz rf →
        ensureDir fs a.path = none →
        fs.stat a.path = StatResult.notExist
        ∧ (main w a fs).effects = r.requests a ++ [Effect.mkdirAll a.path]
        ∧ (main w a fs).fs = fs.mkdirAllLeft a.path
        ∧ (main w a fs).fatal = some (Fatal.failed "os.MkdirAll")
        ∧ created (main w a fs).effects = []) := by
  refine ⟨?_, ?_, ?_, ?_, ?_⟩
  · intro hne hs hcan
    obtain ⟨p, ha⟩ := absolute_of_ne_empty fs.cwd hne
    have hm := mkdirAll_spec hwf ha hs (hcan p ha)
    obtain ⟨fs1, hm⟩ := Option.isSome_iff_exists.mp hm
    simp [ensureDir, hs, hm]
  · intro hs fs1 made he
    rcases ensureDir_cases he with ⟨hno, _, _⟩ | ⟨_, hm, hmade⟩
    · exact absurd hs hno
    · refine ⟨hmade, ?_, ?_⟩
      · have hne : a.path ≠ "" := by
          intro he
          rw [he] at hm
          simp [FS.mkdirAll, absolute] at hm
        obtain ⟨p, ha⟩ := absolute_of_ne_empty fs.cwd hne
        exact (mkdirAll_made ha hm).2
      · intro p ha
        have := (mkdirAll_made ha hm).1
        exact ⟨this.dirs, this.frame⟩
  · intro hs
    simp [ensureDir, hs]
  · intro w r hr hs
    have hdir := hr.hdir
    rcases ensureDir_cases hdir with ⟨hno, _, _⟩ | ⟨_, hm, hmade⟩
    · exact absurd hs hno
    · have hne : a.path ≠ "" := by
        intro he
        rw [he] at hm
        simp [FS.mkdirAll, absolute] at hm
      obtain ⟨p, ha⟩ := absolute_of_ne_empty fs.cwd hne
      refine ⟨?_, (mkdirAll_made ha hm).2, hr.hcreate⟩
      rw [main_of_stores hr]
      simp [Steps.outcome, hmade]
  · intro w r wire gz rf hr hu ha hd
    obtain ⟨h1, h2, h3⟩ := main_of_mkdirAll_failed hr hu ha hd
    refine ⟨?_, h1, h2, h3, ?_⟩
    · unfold ensureDir at hd
      rcases hs : fs.stat a.path with n | _ | _ | _
      · simp [hs] at hd
      · rfl
      · simp [hs] at hd
      · simp [hs] at hd
    · rw [h1]
      simp [created_append, Steps.requests, created]

/-- C8 witness: from the empty working directory, where every name of the
path is one the system takes, the step makes `backups` and `backups/1a2b`,
and in the sample run `MkdirAll` comes before `os.Create`. -/
theorem directory_step_witness :
    Sample.emptyFS.WellFormed
    ∧ (Sample.args "key").path ≠ ""
    ∧ Sample.emptyFS.stat (Sample.args "key").path = StatResult.notExist
    ∧ (ensureDir Sample.emptyFS (Sample.args "key").path).isSome = true
    ∧ Sample.dirFS.stat "backups/1a2b" = StatResult.found Node.dir
    ∧ Sample.dirFS.statLoc ["backups", "u", "home"] = StatResult.found Node.dir
    ∧ Stores Sample.panel2022 (Sample.args "key") Sample.emptyFS Sample.steps2022
    ∧ (main Sample.panel2022 (Sample.args "key") Sample.emptyFS).effects
        = Sample.steps2022.requests (Sample.args "key")
          ++ [Effect.mkdirAll "backups/1a2b",
              Effect.create "backups/1a2b/2022-01-01_00.00.00.tar.gz",
              Effect.write "backups/1a2b/2022-01-01_00.00.00.tar.gz" Sample.archiveBytes] :=
  have hwf : Sample.emptyFS.WellFormed := fun c parent h => by simp [Sample.emptyFS] at h
  have hs : Stores Sample.panel2022 (Sample.args "key") Sample.emptyFS Sample.steps2022 :=
    ⟨⟨⟨⟨by decide, by decide, by rfl, by decide⟩, by rfl, by decide, by rfl, by decide⟩,
      by decide, by rfl, by rfl⟩, by decide, by rfl⟩
  have hcan : ∀ p, absolute Sample.emptyFS.cwd (Sample.args "key").path = some p →
      ∀ q, q <:+ p → Sample.emptyFS.statLoc q = StatResult.notExist →
        Sample.emptyFS.canMake q = true := by
    intro p hp q hq _
    have hp' : p = Sample.dirLoc := by
      have : absolute Sample.emptyFS.cwd (Sample.args "key").path = some Sample.dirLoc := by rfl
      rw [this] at hp
      injection hp with hp
      exact hp.symm
    subst hp'
    have hmem : q ∈ Sample.dirLoc.tails := (List.mem_tails _ _).mpr hq
    simp [Sample.dirLoc] at hmem
    rcases hmem with rfl | rfl | rfl | rfl | rfl <;> decide
  ⟨hwf, by decide, by decide,
    (directory_step (Sample.args "key") Sample.emptyFS hwf).1 (by decide) (by decide) hcan,
    ((directory_step (Sample.args "key") Sample.emptyFS hwf).2.1 (by decide)
      Sample.dirFS [Effect.mkdirAll "backups/1a2b"] (by rfl)).2.1,
    (((directory_step (Sample.args "key") Sample.emptyFS hwf).2.1 (by decide)
      Sample.dirFS [Effect.mkdirAll "backups/1a2b"] (by rfl)).2.2
      Sample.dirLoc (by rfl)).1 ["backups", "u", "home"] ⟨["1a2b"], rfl⟩,
    hs,
    ((directory_step (Sample.args "key") Sample.emptyFS hwf).2.2.2.1 Sample.panel2022
      Sample.steps2022 hs (by decide)).1⟩

/-- C9, as stated, fails: when the last record is unsuccessful the message
of the fatal error is not `latest backup was not successful`. -/
theorem domain_failure_messages_counterexample :
    (Sample.decodedListing "bbbb" false "2022-01-01T00:00:00Z").Data.getLast?
        = some (Sample.decodedRecord "bbbb" false "2022-01-01T00:00:00Z")
    ∧ (Sample.decodedRecord "bbbb" false "2022-01-01T00:00:00Z").Attributes.IsSuccessful = false
    ∧ (main (Sample.panel "bbbb" false "2022-01-01T00:00:00Z") (Sample.args "key")
          Sample.emptyFS).fatal
        = some (Fatal.message "latest pterodactyl backup was not successful")
    ∧ (main (Sample.panel "bbbb" false "2022-01-01T00:00:00Z") (Sample.args "key")
          Sample.emptyFS).fatal
        ≠ some (Fatal.message "latest backup was not successful") := by
  decide

/-- C9 as amended: when the data sequence of the listing is empty the run
fails with the message `no backups available`, and when the last record has
`is_successful == false` it fails with the message
`latest pterodactyl backup was not successful`. -/
theorem domain_failure_messages (w : World) (a : Args) (fs : FS) (r : Steps)
    (h : Listed w a r) :
    (r.bs.Data = [] → (main w a fs).fatal = some (Fatal.message "no backups available"))
    ∧ (∀ b, r.bs.Data.getLast? = some b → b.Attributes.IsSuccessful = false →
        (main w a fs).fatal
          = some (Fatal.message "latest pterodactyl backup was not successful")) := by
  rw [main_of_listed fs h]
  constructor
  · intro he
    have := @selectTarget_empty r.bs (by simp [he])
    simp [resolveAndFetch, this]
  · intro b hb hs
    have hne : 1 ≤ r.bs.Data.length := by
      rcases hd : r.bs.Data with _ | ⟨x, xs⟩
      · simp [hd] at hb
      · simp
    rw [getLast_of_get hne] at hb
    injection hb with hb
    subst hb
    have := selectTarget_failed hne hs
    simp [resolveAndFetch, this]

/-- C9 witness: a listing without records, and a listing whose last record
failed. -/
theorem domain_failure_messages_witness :
    Listed (Sample.world "key" "bbbb" Sample.emptyListingJson Sample.ticketJson)
      (Sample.args "key") Sample.stepsEmpty
    ∧ (main (Sample.world "key" "bbbb" Sample.emptyListingJson Sample.ticketJson)
        (Sample.args "key") Sample.emptyFS).fatal
        = some (Fatal.message "no backups available") :=
  have hl : Listed (Sample.world "key" "bbbb" Sample.emptyListingJson Sample.ticketJson)
      (Sample.args "key") Sample.stepsEmpty := ⟨by decide, by decide, by rfl, by decide⟩
  ⟨hl, (domain_failure_messages _ (Sample.args "key") Sample.emptyFS Sample.stepsEmpty hl).1
    (by decide)⟩

/-- C10, as stated, fails: `2023-05-01T1:30:45Z` is not a timestamp of
RFC 3339 (the hour has one digit), but `time.Parse` accepts it, and the run
completes and writes the file `2023-05-01_01.30.45.tar.gz`. -/
theorem parse_failure_leaves_no_file_counterexample :
    readRFC3339 "2023-05-01T1:30:45Z".data = none
    ∧ (main (Sample.panel "bbbb" true "2023-05-01T1:30:45Z") (Sample.args "key")
          Sample.emptyFS).fatal = none
    ∧ created (main (Sample.panel "bbbb" true "2023-05-01T1:30:45Z") (Sample.args "key")
          Sample.emptyFS).effects = ["backups/1a2b/2023-05-01_01.30.45.tar.gz"]
    ∧ (main (Sample.panel "bbbb" true "2023-05-01T1:30:45Z") (Sample.args "key")
          Sample.emptyFS).fs.readFile "backups/1a2b/2023-05-01_01.30.45.tar.gz"
        = some Sample.archiveBytes := by
  decide

/-- C10 as amended: for every run in which `time.Parse` refuses the
`created_at` of the selected record, the run ends with the error of
`time.Parse`; its effects are the three requests and what the directory
step did, so no file is created or written; the GET of the signed URL has
been sent and the directory step has been done, and the filesystem is as
the directory step left it. -/
theorem parse_failure_leaves_no_file (w : World) (a : Args) (fs : FS) (r : Steps)
    (h : Fetched w a fs r) (hp : timeParse r.targetBackup.Attributes.CreatedAt = none) :
    (main w a fs).fatal = some (Fatal.failed "time.Parse")
    ∧ (main w a fs).effects = r.requests a ++ r.made
    ∧ (∀ e, e ∈ (main w a fs).effects →
        (∀ name, e ≠ Effect.create name) ∧ (∀ name data, e ≠ Effect.write name data))
    ∧ Effect.send r.archiveRequest ∈ (main w a fs).effects
    ∧ ensureDir fs a.path = some (r.fs1, r.made)
    ∧ (main w a fs).fs = r.fs1 := by
  have hm : main w a fs = Outcome.mk (r.requests a ++ r.made) r.fs1
      (some (Fatal.failed "time.Parse")) := by
    rw [main_of_fetched h, hp]
  rw [hm]
  refine ⟨rfl, rfl, ?_, by simp [Steps.requests], h.hdir, rfl⟩
  intro e he
  rcases ensureDir_cases h.hdir with ⟨_, _, hm⟩ | ⟨_, _, hm⟩
  · simp [Steps.requests, hm] at he
    rcases he with he | he | he <;> subst he <;> simp
  · simp [Steps.requests, hm] at he
    rcases he with he | he | he | he <;> subst he <;> simp

/-- C10 witness: with `created_at = yesterday` the run ends at the parse,
after the GET of the signed URL and after `MkdirAll`, with no file. -/
theorem parse_failure_leaves_no_file_witness :
    Fetched (Sample.panel "bbbb" true "yesterday") (Sample.args "key") Sample.emptyFS
      Sample.stepsYesterday
    ∧ timeParse "yesterday" = none
    ∧ (main (Sample.panel "bbbb" true "yesterday") (Sample.args "key") Sample.emptyFS).fatal
        = some (Fatal.failed "time.Parse")
    ∧ (main (Sample.panel "bbbb" true "yesterday") (Sample.args "key") Sample.emptyFS).effects
        = [Effect.send
            (panelRequest "https://panel.example.com/api/client/servers/1a2b/backups" "key"),
           Effect.send (panelRequest
            "https://panel.example.com/api/client/servers/1a2b/backups/bbbb/download" "key"),
           Effect.send (getRequest "https://node.example.com/dl?token=t"),
           Effect.mkdirAll "backups/1a2b"] :=
  have hf : Fetched (Sample.panel "bbbb" true "yesterday") (Sample.args "key") Sample.emptyFS
      Sample.stepsYesterday :=
    ⟨⟨⟨by decide, by decide, by rfl, by decide⟩, by rfl, by decide, by rfl, by decide⟩,
      by decide, by rfl, by rfl⟩
  ⟨hf, by decide,
    (parse_failure_leaves_no_file (Sample.panel "bbbb" true "yesterday") (Sample.args "key")
      Sample.emptyFS Sample.stepsYesterday hf (by decide)).1,
    (parse_failure_leaves_no_file (Sample.panel "bbbb" true "yesterday") (Sample.args "key")
      Sample.emptyFS Sample.stepsYesterday hf (by decide)).2.1⟩

end Fossil
